import Mathlib

/-!
# serverless-plugin-lambda-warmup: the resource generator

A shallow embedding of `src/index.js` (`LambdaWarmup.addWarmupRule`) and of the
JavaScript operations it relies on, followed by theorems about it.

Modelling conventions:

* JavaScript values are the inductive `JVal`. An object is the list of its own
  enumerable properties in iteration order; an array is its list of elements
  together with the named (non-index) properties it may carry. Numbers are
  integers; `JSON.stringify` writes the safe integers (`safeNumbers`) with all
  their digits, and `serialize` is its model on those. Two distinct object or
  array values are never the same reference.
* `service` is the record of the three properties of `serverless.service` that
  the plugin reads or writes. An absent property is `JVal.undefined`.
* The naming service is a pair of pure functions returning strings.
* `cli.log` only reports; the log sink is not part of the modelled state.
* `lodash.chunk` and `lodash.set` are modelled after their documented behaviour;
  the path `resources.Resources[<id>]` is the key sequence `resources`, `Resources`,
  `<id>`, as it is for ids without `.`, `[` and `]` (logical ids are alphanumeric).
  The predicate `pathSafe` says that an id is of this kind.
* `semver.satisfies` is modelled after the behaviour of the semver package on the
  value of `serverless.version` as that package reads it (`HostVersion`).
* A thrown `TypeError` is the `Except.error` result.
-/

namespace LambdaWarmup

/-- JavaScript values as they come out of a parsed service definition. -/
inductive JVal where
  | undefined
  | null
  | bool (b : Bool)
  | num (n : Int)
  | str (s : String)
  | arr (elems : List JVal) (props : List (String × JVal))
  | obj (props : List (String × JVal))
  deriving Repr, Inhabited

/-- Errors a JavaScript run can raise here. -/
inductive JsError where
  | TypeError
  deriving Repr, DecidableEq, Inhabited

namespace JVal

/-- The test `typeof v === 'object'`: true of objects, arrays and `null`. -/
def typeofObject : JVal → Bool
  | null => true
  | arr _ _ => true
  | obj _ => true
  | _ => false

/-- JavaScript truthiness (`ToBoolean`). -/
def truthy : JVal → Bool
  | undefined => false
  | null => false
  | bool b => b
  | num n => decide (n ≠ 0)
  | str s => decide (s ≠ "")
  | arr _ _ => true
  | obj _ => true

/-- The values on which a property read throws. -/
def isNullish : JVal → Bool
  | undefined => true
  | null => true
  | _ => false

/-- The lodash test `isObject`: a value that can hold properties. -/
def isObject : JVal → Bool
  | arr _ _ => true
  | obj _ => true
  | _ => false

/-- The index properties of an array: `"0"`, `"1"`, ... paired with the elements. -/
def indexed (xs : List JVal) : List (String × JVal) :=
  xs.enum.map fun p => (toString p.1, p.2)

/-- Own enumerable properties in iteration order (`Object.keys` order). Primitive
values carry none of the property names read by this program. -/
def entries : JVal → List (String × JVal)
  | obj ps => ps
  | arr xs ps => indexed xs ++ ps
  | _ => []

/-- Own property lookup. -/
def own? (v : JVal) (k : String) : Option JVal :=
  (entries v).lookup k

/-- Property read `v[k]` on a value that is not nullish: `undefined` when missing. -/
def get (v : JVal) (k : String) : JVal :=
  (own? v k).getD undefined

/-- The operator `a || b`. -/
def or (a b : JVal) : JVal :=
  if truthy a then a else b

/-- The operator `a && b`. -/
def and (a b : JVal) : JVal :=
  if truthy a then b else a

/-- Strict equality `===`. Objects and arrays compare by reference, and no two
values of this model share one. -/
def strictEq : JVal → JVal → Bool
  | undefined, undefined => true
  | null, null => true
  | bool a, bool b => a == b
  | num a, num b => a == b
  | str a, str b => a == b
  | _, _ => false

/-- Write `k := v` into a property list: in place when the key exists, appended
otherwise. -/
def upsert : List (String × JVal) → String → JVal → List (String × JVal)
  | [], k, v => [(k, v)]
  | (k', v') :: rest, k, v =>
    if k' = k then (k, v) :: rest else (k', v') :: upsert rest k v

/-- The assignment `o[k] = v` for a property name `k` that is not an array index. -/
def assign : JVal → String → JVal → JVal
  | obj ps, k, v => obj (upsert ps k v)
  | arr xs ps, k, v => arr xs (upsert ps k v)
  | w, _, _ => w

/-- The call `[].concat(v)`: an array is spread, any other value is one element. -/
def concat : JVal → List JVal
  | arr xs _ => xs
  | v => [v]

/-- The test `list.indexOf(x) === -1`. -/
def notIndexOf (list : List JVal) (x : JVal) : Bool :=
  !(list.any fun y => strictEq y x)

end JVal

open JVal

/-! ## `JSON.stringify` -/

/-- Two lower-case hexadecimal digits of a code unit below 256. -/
def hex2 (n : Nat) : String :=
  String.mk [Nat.digitChar (n / 16), Nat.digitChar (n % 16)]

/-- One character of a quoted JSON string. -/
def quoteChar (c : Char) : String :=
  if c.toNat = 34 then String.mk [Char.ofNat 92, Char.ofNat 34]
  else if c.toNat = 92 then String.mk [Char.ofNat 92, Char.ofNat 92]
  else if c.toNat = 8 then String.mk [Char.ofNat 92, 'b']
  else if c.toNat = 12 then String.mk [Char.ofNat 92, 'f']
  else if c.toNat = 10 then String.mk [Char.ofNat 92, 'n']
  else if c.toNat = 13 then String.mk [Char.ofNat 92, 'r']
  else if c.toNat = 9 then String.mk [Char.ofNat 92, 't']
  else if c.toNat < 32 then String.mk [Char.ofNat 92, 'u', '0', '0'] ++ hex2 c.toNat
  else String.singleton c

/-- The operation `QuoteJSONString`. -/
def quote (s : String) : String :=
  String.singleton (Char.ofNat 34) ++ String.join (s.data.map quoteChar)
    ++ String.singleton (Char.ofNat 34)

mutual
/-- The operation `SerializeJSONProperty`: `none` stands for `undefined`. A number is
written with all its decimal digits, as JavaScript writes the safe integers. -/
def serialize : JVal → Option String
  | .undefined => none
  | .null => some "null"
  | .bool b => some (if b then "true" else "false")
  | .num n => some (toString n)
  | .str s => some (quote s)
  | .arr xs _ => some ("[" ++ ",".intercalate (serializeElems xs) ++ "]")
  | .obj ps => some ("\x7b" ++ ",".intercalate (serializeProps ps) ++ "\x7d")
/-- Array elements: an `undefined` element is written `null`. -/
def serializeElems : List JVal → List String
  | [] => []
  | x :: xs => (serialize x).getD "null" :: serializeElems xs
/-- Object members: a member whose value is `undefined` is left out. -/
def serializeProps : List (String × JVal) → List String
  | [] => []
  | (k, v) :: ps =>
    match serialize v with
    | some s => (quote k ++ ":" ++ s) :: serializeProps ps
    | none => serializeProps ps
end

/-- The call `JSON.stringify(v)` as a JavaScript value. -/
def jsonStringify (v : JVal) : JVal :=
  match serialize v with
  | some s => .str s
  | none => .undefined

/-! ## lodash `chunk` and `set` -/

/-- The call `chunk(array, size)` of lodash: `ceil(length / size)` slices
`array.slice(i * size, (i + 1) * size)`. -/
def chunk {α : Type} (array : List α) (size : Nat) : List (List α) :=
  if array.length = 0 ∨ size < 1 then []
  else (List.range ((array.length + size - 1) / size)).map fun i =>
    (array.drop (i * size)).take size

/-- The call `array.forEach((x, index) => ...)` threading the state, from `index`. -/
def forEachIdx {σ α : Type} (f : σ → α → Nat → σ) : List α → Nat → σ → σ
  | [], _, s => s
  | x :: xs, i, s => forEachIdx f xs (i + 1) (f s x i)

/-- The part of `serverless.service` the plugin touches. -/
structure Service where
  functions : JVal
  custom : JVal
  resources : JVal
  deriving Repr, Inhabited

/-- The call `set(service, 'resources.Resources[<id>]', value)` of lodash for an
`id` free of the path separators `.`, `[` and `]`: the path is `resources`,
`Resources`, `id`; a segment that is not an object is replaced by `{}`. -/
def set (service : Service) (id : String) (value : JVal) : Service :=
  let resources := if isObject service.resources then service.resources else .obj []
  let inner := if isObject (get resources "Resources") then get resources "Resources" else .obj []
  { service with resources := assign resources "Resources" (assign inner id value) }

/-! ## The plugin -/

def DEFAULT_PAYLOAD : JVal := .obj [("source", .str "serverless-plugin-lambda-warmup")]
def DEFAULT_SCHEDULE : String := "rate(5 minutes)"
def RESOURCE_NAME : String := "LambdaWarmupEventsRule"
def TARGETS_PER_RULE : Nat := 5

/-- The naming service of the provider. -/
structure Naming where
  getLambdaLogicalId : String → String
  getStackName : String

/-- One element of a rule's `Targets`. -/
structure Target where
  Id : String
  Arn : JVal
  Input : JVal
  deriving Repr, Inhabited

/-- The object `{ 'Fn::GetAtt': [logicalId, 'Arn'] }`. -/
def getAtt (logicalId : String) : JVal :=
  .obj [("Fn::GetAtt", .arr [.str logicalId, .str "Arn"] [])]

/-- The object literal pushed by the reducer. -/
def Target.toJVal (t : Target) : JVal :=
  .obj [("Id", .str t.Id), ("Arn", t.Arn), ("Input", t.Input)]

/-- The target built for one function name. -/
def mkTarget (naming : Naming) (input : JVal) (functionName : String) : Target :=
  let functionLogicalId := naming.getLambdaLogicalId functionName
  { Id := functionLogicalId ++ "Schedule", Arn := getAtt functionLogicalId, Input := input }

/-- The test `definition.warmup !== false` on a definition that is not nullish. -/
def isEligible (definition : JVal) : Bool :=
  !(strictEq (get definition "warmup") (.bool false))

/-- The reducer over `Object.keys(service.functions)`, with its accumulator. -/
def reduceTargets (naming : Naming) (input : JVal) :
    List (String × JVal) → List Target → Except JsError (List Target)
  | [], acc => .ok acc
  | (functionName, definition) :: rest, acc =>
    if isNullish definition then .error .TypeError
    else if isEligible definition then
      reduceTargets naming input rest (acc ++ [mkTarget naming input functionName])
    else reduceTargets naming input rest acc

/-- The expression `(service.custom && service.custom.warmup) || {}`. -/
def warmupConfig (custom : JVal) : JVal :=
  JVal.or (JVal.and custom (get custom "warmup")) (.obj [])

/-- The id of the rule with the given 1-based suffix. -/
def ruleId (suffix : Nat) : String :=
  RESOURCE_NAME ++ toString suffix

/-- The id of the permission of a target under a rule. -/
def permissionId (ruleId : String) (target : Target) : String :=
  ruleId ++ target.Id ++ "Permission"

def ruleResource (config : JVal) (stackName : String) (suffix : Nat)
    (targetsChunk : List Target) : JVal :=
  .obj [
    ("Type", .str "AWS::Events::Rule"),
    ("Properties", .obj [
      ("ScheduleExpression", JVal.or (get config "schedule") (.str DEFAULT_SCHEDULE)),
      ("State", .str "ENABLED"),
      ("Name", .str (stackName ++ "-lambdaWarmup-timer-" ++ toString suffix)),
      ("Description", .str "Lambda warmup timer created by serverless-plugin-lambda-warmup"),
      ("Targets", .arr (targetsChunk.map Target.toJVal) [])])]

def permissionResource (ruleId : String) (target : Target) : JVal :=
  .obj [
    ("Type", .str "AWS::Lambda::Permission"),
    ("Properties", .obj [
      ("Action", .str "lambda:InvokeFunction"),
      ("FunctionName", target.Arn),
      ("Principal", .str "events.amazonaws.com"),
      ("SourceArn", getAtt ruleId)])]

/-- The body of the `forEach` over the chunks. -/
def addChunk (config : JVal) (stackName : String) (service : Service)
    (targetsChunk : List Target) (chunkIndex : Nat) : Service :=
  let suffix := chunkIndex + 1
  let service := set service (ruleId suffix)
    (ruleResource config stackName suffix targetsChunk)
  targetsChunk.foldl
    (fun service target =>
      set service (permissionId (ruleId suffix) target)
        (permissionResource (ruleId suffix) target))
    service

/-- The method `addWarmupRule`, with `this.options.stage` and the provider's naming
service as arguments and the service after the call as result. -/
def addWarmupRule (naming : Naming) (stage : JVal) (service : Service) :
    Except JsError Service :=
  if !typeofObject service.functions then .ok service
  else
    let config := warmupConfig service.custom
    if truthy (get config "stages") && notIndexOf (concat (get config "stages")) stage then
      .ok service
    else
      let input := jsonStringify (JVal.or (get config "payload") DEFAULT_PAYLOAD)
      if isNullish service.functions then .error .TypeError
      else
        match reduceTargets naming input (entries service.functions) [] with
        | .error e => .error e
        | .ok targets =>
          if targets.length = 0 then .ok service
          else
            .ok (forEachIdx (addChunk config naming.getStackName)
              (chunk targets TARGETS_PER_RULE) 0 service)

/-- The resource stored under `id` in `service.resources.Resources`, if any. -/
def resourceAt (service : Service) (id : String) : Option JVal :=
  own? (get service.resources "Resources") id

/-! ## Auxiliary definitions used to state and prove the theorems -/

/-- A property name that is not the decimal numeral of a natural number, hence not
an array index. -/
def NotNumeral (k : String) : Prop := ∀ n : Nat, toString n ≠ k

/-- Reading a decimal numeral back, most significant digit first. -/
def readDigits (acc : Nat) (ds : List Char) : Nat :=
  ds.foldl (fun a c => a * 10 + (c.toNat - 48)) acc

/-- Whether the first character of a string is a decimal digit. -/
def startsWithDigit (s : String) : Bool :=
  match s.data with
  | [] => false
  | c :: _ => c.isDigit

/-- The effect of `set` on the value of `service.resources`. -/
def setRes (resources : JVal) (id : String) (value : JVal) : JVal :=
  let resources := if isObject resources then resources else .obj []
  let inner := if isObject (get resources "Resources") then get resources "Resources" else .obj []
  assign resources "Resources" (assign inner id value)

/-- The resource stored under `id` in a value of `service.resources`. -/
def resAt (resources : JVal) (id : String) : Option JVal :=
  own? (get resources "Resources") id

/-- A sequence of `set` calls applied to a value of `service.resources`. -/
def applyWrites (ws : List (String × JVal)) (resources : JVal) : JVal :=
  ws.foldl (fun r w => setRes r w.1 w.2) resources

/-- The value last written under `k` by a sequence of writes, `base` if none. -/
def lastWrite (ws : List (String × JVal)) (k : String) (base : Option JVal) : Option JVal :=
  ws.foldl (fun cur w => if k = w.1 then some w.2 else cur) base

/-- The writes of one chunk: its rule, then one permission per target. -/
def chunkWrites (config : JVal) (stackName : String) (targetsChunk : List Target)
    (chunkIndex : Nat) : List (String × JVal) :=
  (ruleId (chunkIndex + 1), ruleResource config stackName (chunkIndex + 1) targetsChunk) ::
    targetsChunk.map fun t =>
      (permissionId (ruleId (chunkIndex + 1)) t, permissionResource (ruleId (chunkIndex + 1)) t)

/-- The writes of the chunks in order, the first chunk having index `i`. -/
def writesFrom (config : JVal) (stackName : String) : List (List Target) → Nat →
    List (String × JVal)
  | [], _ => []
  | c :: cs, i => chunkWrites config stackName c i ++ writesFrom config stackName cs (i + 1)

/-- The targets of the functions that are not opted out, in iteration order. -/
def targetList (naming : Naming) (input : JVal) (fns : List (String × JVal)) : List Target :=
  (fns.filter fun e => isEligible e.2).map fun e => mkTarget naming input e.1

/-- The payload string of a run, from `service.custom`. -/
def runInput (custom : JVal) : JVal :=
  jsonStringify (JVal.or (get (warmupConfig custom) "payload") DEFAULT_PAYLOAD)

/-- The stage gate of `addWarmupRule` holds the run back. -/
def stageBlocked (custom stage : JVal) : Bool :=
  truthy (get (warmupConfig custom) "stages") &&
    notIndexOf (concat (get (warmupConfig custom) "stages")) stage

/-- The slice of the target list that makes up the chunk of index `i`. -/
def slice (targets : List Target) (i : Nat) : List Target :=
  (targets.drop (i * TARGETS_PER_RULE)).take TARGETS_PER_RULE

/-- The number of entries of `resources.Resources` whose `Type` is `ty`. -/
def countType (resources : JVal) (ty : String) : Nat :=
  ((entries (get resources "Resources")).filter fun e =>
    strictEq (get e.2 "Type") (.str ty)).length

/-- The targets of a run over the function entries `fns`. -/
def runTargets (naming : Naming) (custom : JVal) (fns : List (String × JVal)) : List Target :=
  targetList naming (runInput custom) fns

/-- The number of rules of a run with `n` targets: `ceil(n / 5)`. -/
def ruleCount (n : Nat) : Nat :=
  (n + TARGETS_PER_RULE - 1) / TARGETS_PER_RULE

/-- The `set` calls of a run over the function entries `fns`, in order. -/
def runWrites (naming : Naming) (custom : JVal) (fns : List (String × JVal)) :
    List (String × JVal) :=
  writesFrom (warmupConfig custom) naming.getStackName
    (chunk (runTargets naming custom fns) TARGETS_PER_RULE) 0

/-- The elements of a rule's `Targets`, read off the stored resource. -/
def targetsOf (rule : JVal) : List JVal :=
  match JVal.get (JVal.get rule "Properties") "Targets" with
  | .arr elems _ => elems
  | _ => []

/-- The `ScheduleExpression` of a stored rule. -/
def scheduleOf (rule : JVal) : JVal :=
  JVal.get (JVal.get rule "Properties") "ScheduleExpression"

/-- Whether an id is free of the characters `.`, `[` and `]`, which separate the keys
of a lodash path. For such an id the path `resources.Resources[<id>]` of the two `set`
calls of the plugin is the key sequence `resources`, `Resources`, `<id>`. -/
def pathSafe (id : String) : Bool :=
  id.data.all fun c => !(c.toNat == 46 || c.toNat == 91 || c.toNat == 93)

/-- The entries of `resources.Resources` of type `AWS::Lambda::Permission` whose
`FunctionName` is the reference `{'Fn::GetAtt': [<logical id>, 'Arn']}` to the function
with the given logical id, compared by their JSON text. -/
def permissionsOf (resources : JVal) (functionLogicalId : String) : List (String × JVal) :=
  (entries (get resources "Resources")).filter fun e =>
    strictEq (get e.2 "Type") (.str "AWS::Lambda::Permission") &&
    (serialize (get (get e.2 "Properties") "FunctionName")
      == serialize (getAtt functionLogicalId))

/-- The constant `Number.MAX_SAFE_INTEGER`, `2 ^ 53 - 1`. -/
def MAX_SAFE_INTEGER : Nat := 9007199254740991

mutual
/-- Whether every number inside a value is a safe integer, between `-(2 ^ 53 - 1)` and
`2 ^ 53 - 1`. These are the numbers that JavaScript holds exactly and that
`JSON.stringify` writes with all their decimal digits, as `serialize` does. -/
def safeNumbers : JVal → Bool
  | .undefined => true
  | .null => true
  | .bool _ => true
  | .num n => decide (n.natAbs ≤ MAX_SAFE_INTEGER)
  | .str _ => true
  | .arr xs ps => safeNumbersElems xs && safeNumbersProps ps
  | .obj ps => safeNumbersProps ps
/-- The same for the elements of an array. -/
def safeNumbersElems : List JVal → Bool
  | [] => true
  | x :: xs => safeNumbers x && safeNumbersElems xs
/-- The same for the properties of an object. -/
def safeNumbersProps : List (String × JVal) → Bool
  | [] => true
  | (_, v) :: ps => safeNumbers v && safeNumbersProps ps
end

/-! ## Concrete inputs -/

/-- The naming service of the test suite: the function name with its first letter in
upper case, followed by `LambdaFunction`; the stack is `foo-dev`. -/
def exNaming : Naming where
  getLambdaLogicalId := fun functionName =>
    String.mk (match functionName.data with
      | [] => []
      | c :: cs => c.toUpper :: cs) ++ "LambdaFunction"
  getStackName := "foo-dev"

/-- The functions `function1 .. function<n>`, none with a `warmup` flag. -/
def exFunctions (n : Nat) : List (String × JVal) :=
  (List.range n).map fun i => ("function" ++ toString (i + 1), JVal.obj [])

/-- A service with `n` functions, no `custom` block and no resource tree. -/
def exService (n : Nat) : Service :=
  { functions := .obj (exFunctions n), custom := .undefined, resources := .undefined }

/-- Forty-six functions without a `warmup` flag: `0X`, `function2 .. function45`, `X`.
Under `exNaming` their logical ids are pairwise distinct; the first lands in rule 1
and the last in rule 10. -/
def exCollidingFunctions : List (String × JVal) :=
  ("0X", JVal.obj []) ::
    ((List.range 44).map fun i => ("function" ++ toString (i + 2), JVal.obj []))
    ++ [("X", JVal.obj [])]

/-- A service with those functions, no `custom` block and no resource tree. -/
def exCollidingService : Service :=
  { functions := .obj exCollidingFunctions, custom := .undefined, resources := .undefined }

/-- A service with six functions and a resource tree that already holds an `Outputs`
section and a resource `Gold`. -/
def exMergeService : Service :=
  { functions := .obj (exFunctions 6), custom := .undefined,
    resources := .obj [("Outputs", .obj []), ("Resources", .obj [("Gold", .obj [])])] }

/-- A service with `n` functions, no resource tree and the given `custom.warmup`
block. -/
def exConfigured (n : Nat) (warmup : JVal) : Service :=
  { functions := .obj (exFunctions n), custom := .obj [("warmup", warmup)],
    resources := .undefined }

/-- What a run of `addWarmupRule` decides from `functions`, `custom` and the stage:
the error it raises, or the `set` calls it makes, in order (none when it returns
early). -/
def plan (naming : Naming) (stage functions custom : JVal) :
    Except JsError (List (String × JVal)) :=
  if !typeofObject functions then .ok []
  else if stageBlocked custom stage then .ok []
  else if isNullish functions then .error .TypeError
  else
    match reduceTargets naming (runInput custom) (entries functions) [] with
    | .error e => .error e
    | .ok targets =>
      .ok (writesFrom (warmupConfig custom) naming.getStackName
        (chunk targets TARGETS_PER_RULE) 0)

/-- A sequence of writes applied to a property list. -/
def applyList (ws : List (String × JVal)) (ps : List (String × JVal)) : List (String × JVal) :=
  ws.foldl (fun l w => upsert l w.1 w.2) ps

/-- A sequence of assignments applied to one object. -/
def assignAll (ws : List (String × JVal)) (o : JVal) : JVal :=
  ws.foldl (fun o w => assign o w.1 w.2) o

/-! ## The constructor -/

/-- The fields of a version string that matches the grammar of semantic versions:
`major.minor.patch` and the identifiers of an optional prerelease tag. -/
structure SemVer where
  major : Nat
  minor : Nat
  patch : Nat
  prerelease : List String
  deriving Repr, DecidableEq, Inhabited

/-- The value of `serverless.version`, as the semver package reads it. -/
inductive HostVersion where
  /-- A falsy value: `undefined`, `null`, the empty string. -/
  | absent
  /-- A truthy value that is not a version: not a string, a string of more than 256
  characters, or a string that does not match the grammar. -/
  | malformed
  /-- A string of at most 256 characters that matches the grammar, with its fields. -/
  | parsed (fields : SemVer)
  deriving Repr, DecidableEq, Inhabited

/-- What the constructor throws: an exception raised inside the semver package, or the
plugin's own `Error` with its message. -/
inductive ConstructError where
  | semver (e : JsError)
  | Error (message : String)
  deriving Repr, DecidableEq, Inhabited

/-- The constructor `new SemVer(version)` of the semver package: a `TypeError` on what
is not a version and on a version with a number above `MAX_SAFE_INTEGER`. -/
def newSemVer : HostVersion → Except JsError SemVer
  | .absent => .error .TypeError
  | .malformed => .error .TypeError
  | .parsed fields =>
    if MAX_SAFE_INTEGER < fields.major then .error .TypeError
    else if MAX_SAFE_INTEGER < fields.minor then .error .TypeError
    else if MAX_SAFE_INTEGER < fields.patch then .error .TypeError
    else .ok fields

/-- The precedence test `compare(version, '1.12.0') >= 0` of the semver package: by
major, minor and patch, and on equal numbers a prerelease is lower than the release. -/
def gteMinimum (version : SemVer) : Bool :=
  if version.major ≠ 1 then decide (1 < version.major)
  else if version.minor ≠ 12 then decide (12 < version.minor)
  else if version.patch ≠ 0 then true
  else version.prerelease.isEmpty

/-- The call `semver.satisfies(version, '>= 1.12')`. A falsy version does not satisfy
the range; any other value is first made a `SemVer`, which may throw. The range is the
comparator `>=1.12.0`; a version with a prerelease tag satisfies a range only through a
comparator that carries a prerelease tag on the same major, minor and patch, and this
range has none. -/
def satisfies (version : HostVersion) : Except JsError Bool :=
  match version with
  | .absent => .ok false
  | _ =>
    match newSemVer version with
    | .error e => .error e
    | .ok fields => .ok (gteMinimum fields && fields.prerelease.isEmpty)

/-- The plugin instance: the naming service of its provider, the stage of its options
and its hooks, each a handler acting on `serverless.service`. -/
structure Plugin where
  naming : Naming
  stage : JVal
  hooks : List (String × (Service → Except JsError Service))

/-- The constructor of `LambdaWarmup`: what it throws, or the instance. -/
def construct (version : HostVersion) (naming : Naming) (stage : JVal) :
    Except ConstructError Plugin :=
  match satisfies version with
  | .error e => .error (.semver e)
  | .ok false =>
    .error (.Error "serverless-plugin-lambda-account-access requires serverless 1.12 or higher!")
  | .ok true =>
    .ok { naming := naming, stage := stage,
          hooks := [("package:createDeploymentArtifacts",
            fun service => addWarmupRule naming stage service)] }

/-- Seven functions, named after their `warmup` flag: absent, `true`, `null`, `0`, the
empty string, the string `false`, and the boolean `false`. -/
def exFlagFunctions : List (String × JVal) :=
  [("absent", .obj []),
   ("true", .obj [("warmup", .bool true)]),
   ("null", .obj [("warmup", .null)]),
   ("zero", .obj [("warmup", .num 0)]),
   ("empty", .obj [("warmup", .str "")]),
   ("text", .obj [("warmup", .str "false")]),
   ("false", .obj [("warmup", .bool false)])]

/-! # Theorems -/

/-! ## Decimal numerals -/

theorem digitChar_isDigit : ∀ k, k < 10 → (Nat.digitChar k).isDigit = true := by decide

theorem digitChar_val : ∀ k, k < 10 → (Nat.digitChar k).toNat - 48 = k := by decide

theorem toDigitsCore_isDigit (fuel : Nat) : ∀ (n : Nat) (ds : List Char),
    (∀ c ∈ ds, c.isDigit = true) → ∀ c ∈ Nat.toDigitsCore 10 fuel n ds, c.isDigit = true := by
  induction fuel with
  | zero => intro n ds h; simpa [Nat.toDigitsCore] using h
  | succ f ih =>
    intro n ds h
    have hd : (Nat.digitChar (n % 10)).isDigit = true :=
      digitChar_isDigit _ (Nat.mod_lt _ (by decide))
    have h' : ∀ c ∈ Nat.digitChar (n % 10) :: ds, c.isDigit = true := by
      intro c hc
      rcases List.mem_cons.1 hc with rfl | hc
      · exact hd
      · exact h c hc
    simp only [Nat.toDigitsCore]
    split
    · exact h'
    · exact ih _ _ h'

theorem toString_nat_isDigit (n : Nat) : ∀ c ∈ (toString n).data, c.isDigit = true := by
  show ∀ c ∈ (Nat.repr n).data, c.isDigit = true
  simp only [Nat.repr, List.asString]
  exact toDigitsCore_isDigit _ _ _ (by simp)

theorem readDigits_toDigitsCore (fuel : Nat) : ∀ (n : Nat) (ds : List Char), n < fuel →
    readDigits 0 (Nat.toDigitsCore 10 fuel n ds) = readDigits n ds := by
  induction fuel with
  | zero => intro n ds h; omega
  | succ f ih =>
    intro n ds h
    simp only [Nat.toDigitsCore]
    have hv := digitChar_val (n % 10) (Nat.mod_lt _ (by decide))
    split
    · rename_i h0
      simp only [readDigits, List.foldl_cons, hv]
      congr 1
      omega
    · rename_i h0
      rw [ih (n / 10) _ (by omega)]
      simp only [readDigits, List.foldl_cons, hv]
      congr 1
      omega

theorem toString_nat_injective {i j : Nat} (h : toString i = toString j) : i = j := by
  have h' : (Nat.repr i).data = (Nat.repr j).data := congrArg String.data h
  simp only [Nat.repr, List.asString, Nat.toDigits] at h'
  have hi := readDigits_toDigitsCore (i + 1) i [] (by omega)
  have hj := readDigits_toDigitsCore (j + 1) j [] (by omega)
  rw [h'] at hi
  simpa [readDigits] using hi.symm.trans hj

/-- Two numerals followed by texts that do not begin with a digit: equal wholes have
equal parts. -/
theorem digits_append_cancel : ∀ (a b l l' : List Char),
    (∀ c ∈ a, c.isDigit = true) → (∀ c ∈ b, c.isDigit = true) →
    (∀ c r, l = c :: r → c.isDigit = false) → (∀ c r, l' = c :: r → c.isDigit = false) →
    a ++ l = b ++ l' → a = b ∧ l = l' := by
  intro a
  induction a with
  | nil =>
    intro b l l' _ hb hl _ h
    cases b with
    | nil => exact ⟨rfl, by simpa using h⟩
    | cons c b' =>
      exfalso
      have h1 : l = c :: (b' ++ l') := by simpa using h
      have := hl c _ h1
      have := hb c (List.mem_cons_self _ _)
      simp_all
  | cons x a' ih =>
    intro b l l' ha hb hl hl' h
    cases b with
    | nil =>
      exfalso
      have h1 : l' = x :: (a' ++ l) := by simpa using h.symm
      have := hl' x _ h1
      have := ha x (List.mem_cons_self _ _)
      simp_all
    | cons y b' =>
      simp only [List.cons_append, List.cons.injEq] at h
      obtain ⟨hxy, hrest⟩ := h
      have := ih b' l l' (fun c hc => ha c (List.mem_cons_of_mem _ hc))
        (fun c hc => hb c (List.mem_cons_of_mem _ hc)) hl hl' hrest
      exact ⟨by rw [hxy, this.1], this.2⟩

/-! ## Property lists -/

theorem lookup_cons_of_eq (a : String) (b : JVal) (l : List (String × JVal)) :
    ((a, b) :: l).lookup a = some b := by
  simp [List.lookup_cons]

theorem lookup_cons_of_ne {k a : String} (h : k ≠ a) (b : JVal) (l : List (String × JVal)) :
    ((a, b) :: l).lookup k = l.lookup k := by
  have hb : (k == a) = false := beq_eq_false_iff_ne.2 h
  simp [List.lookup_cons, hb]

theorem lookup_upsert (ps : List (String × JVal)) (k : String) (v : JVal) (k' : String) :
    (upsert ps k v).lookup k' = if k' = k then some v else ps.lookup k' := by
  induction ps with
  | nil =>
    by_cases h : k' = k
    · subst h; simp [upsert]
    · simp [upsert, lookup_cons_of_ne h, h]
  | cons p rest ih =>
    obtain ⟨a, b⟩ := p
    by_cases ha : a = k
    · subst ha
      by_cases h : k' = a
      · subst h; simp [upsert]
      · simp [upsert, lookup_cons_of_ne h, h]
    · by_cases h : k' = k
      · subst h
        have : k' ≠ a := fun e => ha e.symm
        simp [upsert, ha, lookup_cons_of_ne this, ih]
      · by_cases h2 : k' = a
        · subst h2; simp [upsert, ha, h]
        · simp [upsert, ha, lookup_cons_of_ne h2, ih, h]

theorem lookup_indexed {k : String} (hk : NotNumeral k) (xs : List JVal) :
    (indexed xs).lookup k = none := by
  rw [List.lookup_eq_none_iff]
  intro p hp
  simp only [indexed, List.mem_map] at hp
  obtain ⟨q, _, rfl⟩ := hp
  simp only [bne_iff_ne, ne_eq]
  intro e
  exact hk q.1 e.symm

theorem own?_assign {o : JVal} (ho : isObject o = true) {k : String} (hk : NotNumeral k)
    (v : JVal) (k' : String) :
    own? (assign o k v) k' = if k' = k then some v else own? o k' := by
  cases o with
  | obj ps => simp [own?, assign, entries, lookup_upsert]
  | arr xs ps =>
    simp only [own?, assign, entries, List.lookup_append, lookup_upsert]
    by_cases h : k' = k
    · subst h; simp [lookup_indexed hk]
    · simp [h]
  | _ => simp [isObject] at ho

theorem isObject_assign (o : JVal) (k : String) (v : JVal) :
    isObject (assign o k v) = isObject o := by
  cases o <;> rfl

/-! ## Resource ids -/

theorem notNumeral_of_mem {k : String} {c : Char} (hc : c ∈ k.data) (hd : c.isDigit = false) :
    NotNumeral k := by
  intro n e
  have := toString_nat_isDigit n c (by rw [e]; exact hc)
  simp [hd] at this

theorem notNumeral_Resources : NotNumeral "Resources" :=
  notNumeral_of_mem (c := 'R') (by decide) (by decide)

theorem ruleId_data (i : Nat) : (ruleId i).data = RESOURCE_NAME.data ++ (toString i).data := by
  simp [ruleId, String.data_append]

theorem permissionId_data (r : String) (t : Target) :
    (permissionId r t).data = r.data ++ (t.Id.data ++ "Permission".data) := by
  simp [permissionId, String.data_append]

theorem ruleId_notNumeral (i : Nat) : NotNumeral (ruleId i) :=
  notNumeral_of_mem (c := 'L') (by rw [ruleId_data]; simp [RESOURCE_NAME]) (by decide)

theorem permissionId_notNumeral (r : String) (t : Target) : NotNumeral (permissionId r t) :=
  notNumeral_of_mem (c := 'P') (by rw [permissionId_data]; simp) (by decide)

theorem ruleId_injective {i j : Nat} (h : ruleId i = ruleId j) : i = j := by
  have h' := congrArg String.data h
  rw [ruleId_data, ruleId_data] at h'
  exact toString_nat_injective (String.ext (List.append_cancel_left h'))

theorem ruleId_ne_permissionId (i j : Nat) (t : Target) :
    ruleId i ≠ permissionId (ruleId j) t := by
  intro h
  have h' := congrArg String.data h
  rw [permissionId_data, ruleId_data, ruleId_data, List.append_assoc] at h'
  have h2 := List.append_cancel_left h'
  have hm : 'P' ∈ (toString i).data := by rw [h2]; simp
  have := toString_nat_isDigit i 'P' hm
  simp at this

theorem startsWithDigit_head {s : String} (h : startsWithDigit s = false) (l : List Char) :
    ∀ c r, s.data ++ ('P' :: l) = c :: r → c.isDigit = false := by
  intro c r e
  unfold startsWithDigit at h
  cases hs : s.data with
  | nil =>
    rw [hs] at e
    simp only [List.nil_append, List.cons.injEq] at e
    rw [← e.1]; decide
  | cons x xs =>
    rw [hs] at e h
    simp only [List.cons_append, List.cons.injEq] at e
    rw [← e.1]; exact h

/-- Permission ids determine the rule suffix and the target id when no target id
begins with a digit. -/
theorem permissionId_injective {i j : Nat} {t t' : Target}
    (ht : startsWithDigit t.Id = false) (ht' : startsWithDigit t'.Id = false)
    (h : permissionId (ruleId i) t = permissionId (ruleId j) t') : i = j ∧ t.Id = t'.Id := by
  have h' := congrArg String.data h
  rw [permissionId_data, permissionId_data, ruleId_data, ruleId_data, List.append_assoc,
    List.append_assoc] at h'
  have h2 := List.append_cancel_left h'
  have hP : "Permission".data = 'P' :: "ermission".data := by decide
  rw [hP] at h2
  obtain ⟨hd, hl⟩ := digits_append_cancel _ _ _ _ (toString_nat_isDigit i)
    (toString_nat_isDigit j) (startsWithDigit_head ht _) (startsWithDigit_head ht' _) h2
  exact ⟨toString_nat_injective (String.ext hd), String.ext (List.append_cancel_right hl)⟩

theorem startsWithDigit_mkTarget (naming : Naming) (input : JVal) (name : String) :
    startsWithDigit (mkTarget naming input name).Id
      = startsWithDigit (naming.getLambdaLogicalId name) := by
  simp only [mkTarget, startsWithDigit, String.data_append]
  cases (naming.getLambdaLogicalId name).data with
  | nil => decide
  | cons x xs => rfl

theorem mkTarget_eq_of_Id {naming : Naming} {input : JVal} {a b : String}
    (h : (mkTarget naming input a).Id = (mkTarget naming input b).Id) :
    mkTarget naming input a = mkTarget naming input b := by
  have h' := congrArg String.data h
  simp only [mkTarget, String.data_append] at h'
  have hL : naming.getLambdaLogicalId a = naming.getLambdaLogicalId b :=
    String.ext (List.append_cancel_right h')
  simp [mkTarget, hL]

/-! ## `set` as a sequence of writes -/

theorem set_eq (service : Service) (id : String) (value : JVal) :
    set service id value = { service with resources := setRes service.resources id value } :=
  rfl

theorem own?_of_not_isObject {g : JVal} (h : isObject g = false) (k : String) :
    own? g k = none := by
  cases g <;> simp_all [isObject, own?, entries]

theorem get_assign_self {o : JVal} (ho : isObject o = true) {k : String} (hk : NotNumeral k)
    (v : JVal) : JVal.get (assign o k v) k = v := by
  simp [JVal.get, own?_assign ho hk]

theorem get_of_not_isObject {g : JVal} (h : isObject g = false) (k : String) :
    JVal.get g k = JVal.undefined := by
  simp [JVal.get, own?_of_not_isObject h]

theorem setRes_of_isObject {r : JVal} (ho : isObject r = true)
    (hg : isObject (JVal.get r "Resources") = true) (id : String) (v : JVal) :
    setRes r id v = assign r "Resources" (assign (JVal.get r "Resources") id v) := by
  simp [setRes, ho, hg]

theorem setRes_of_isObject_inner {r : JVal} (ho : isObject r = true)
    (hg : isObject (JVal.get r "Resources") = false) (id : String) (v : JVal) :
    setRes r id v = assign r "Resources" (JVal.obj [(id, v)]) := by
  simp [setRes, ho, hg, assign, upsert]

theorem setRes_of_not_isObject {r : JVal} (ho : isObject r = false) (id : String) (v : JVal) :
    setRes r id v = JVal.obj [("Resources", JVal.obj [(id, v)])] := by
  have hu : JVal.get (JVal.obj []) "Resources" = JVal.undefined := rfl
  have h1 : isObject JVal.undefined = false := rfl
  unfold setRes
  simp only [ho, hu, h1]
  rfl

theorem resAt_setRes (r : JVal) {id : String} (hid : NotNumeral id) (v : JVal) (k : String) :
    resAt (setRes r id v) k = if k = id then some v else resAt r k := by
  unfold resAt
  by_cases ho : isObject r = true
  · by_cases hg : isObject (JVal.get r "Resources") = true
    · rw [setRes_of_isObject ho hg, get_assign_self ho notNumeral_Resources]
      exact own?_assign hg hid v k
    · have hg' : isObject (JVal.get r "Resources") = false := by simpa using hg
      rw [setRes_of_isObject_inner ho hg', get_assign_self ho notNumeral_Resources,
        own?_of_not_isObject hg']
      by_cases hk : k = id
      · subst hk; simp [own?, entries]
      · simp [own?, entries, lookup_cons_of_ne hk, hk]
  · have ho' : isObject r = false := by simpa using ho
    have hu : own? JVal.undefined k = none := rfl
    have hR : JVal.get (JVal.obj [("Resources", JVal.obj [(id, v)])]) "Resources"
        = JVal.obj [(id, v)] := rfl
    rw [setRes_of_not_isObject ho', get_of_not_isObject ho', hu, hR]
    by_cases hk : k = id
    · subst hk; simp [own?, entries]
    · simp [own?, entries, lookup_cons_of_ne hk, hk]

theorem own?_setRes_other (r : JVal) (id : String) (v : JVal) {k : String}
    (hk : k ≠ "Resources") : own? (setRes r id v) k = own? r k := by
  by_cases ho : isObject r = true
  · by_cases hg : isObject (JVal.get r "Resources") = true
    · rw [setRes_of_isObject ho hg, own?_assign ho notNumeral_Resources]
      simp [hk]
    · have hg' : isObject (JVal.get r "Resources") = false := by simpa using hg
      rw [setRes_of_isObject_inner ho hg', own?_assign ho notNumeral_Resources]
      simp [hk]
  · have ho' : isObject r = false := by simpa using ho
    rw [setRes_of_not_isObject ho', own?_of_not_isObject ho']
    simp [own?, entries, lookup_cons_of_ne hk]

theorem resAt_applyWrites (ws : List (String × JVal)) :
    ∀ (r : JVal) (k : String), (∀ w ∈ ws, NotNumeral w.1) →
      resAt (applyWrites ws r) k = lastWrite ws k (resAt r k) := by
  induction ws with
  | nil => intro r k _; rfl
  | cons w ws ih =>
    intro r k h
    simp only [applyWrites, lastWrite, List.foldl_cons]
    have := ih (setRes r w.1 w.2) k (fun x hx => h x (List.mem_cons_of_mem _ hx))
    simp only [applyWrites, lastWrite] at this
    rw [this, resAt_setRes r (h w (List.mem_cons_self _ _))]

theorem own?_applyWrites_other (ws : List (String × JVal)) :
    ∀ (r : JVal) {k : String}, k ≠ "Resources" → own? (applyWrites ws r) k = own? r k := by
  induction ws with
  | nil => intro r k _; rfl
  | cons w ws ih =>
    intro r k hk
    simp only [applyWrites, List.foldl_cons]
    have := ih (setRes r w.1 w.2) hk
    simp only [applyWrites] at this
    rw [this, own?_setRes_other r _ _ hk]

theorem lastWrite_of_not_mem (ws : List (String × JVal)) (k : String) :
    ∀ base, (∀ w ∈ ws, w.1 ≠ k) → lastWrite ws k base = base := by
  induction ws with
  | nil => intro base _; rfl
  | cons w ws ih =>
    intro base h
    simp only [lastWrite, List.foldl_cons]
    have hw : ¬ k = w.1 := fun e => h w (List.mem_cons_self _ _) e.symm
    simp only [hw, if_false]
    exact ih base (fun x hx => h x (List.mem_cons_of_mem _ hx))

theorem lastWrite_of_mem (ws : List (String × JVal)) (k : String) (v : JVal) :
    ∀ base, (∃ w ∈ ws, w.1 = k) → (∀ w ∈ ws, w.1 = k → w.2 = v) →
      lastWrite ws k base = some v := by
  induction ws with
  | nil => intro base h; simp at h
  | cons w ws ih =>
    intro base hex hall
    simp only [lastWrite, List.foldl_cons]
    by_cases hrest : ∃ x ∈ ws, x.1 = k
    · exact ih _ hrest (fun x hx => hall x (List.mem_cons_of_mem _ hx))
    · have hnone : ∀ x ∈ ws, x.1 ≠ k := fun x hx e => hrest ⟨x, hx, e⟩
      have := lastWrite_of_not_mem ws k (if k = w.1 then some w.2 else base) hnone
      simp only [lastWrite] at this
      rw [this]
      obtain ⟨x, hx, hxk⟩ := hex
      rcases List.mem_cons.1 hx with rfl | hx
      · simp [hxk, hall x (List.mem_cons_self _ _) hxk]
      · exact absurd hxk (hnone x hx)

theorem addChunk_eq (config : JVal) (stackName : String) (service : Service)
    (c : List Target) (i : Nat) :
    addChunk config stackName service c i
      = { service with resources := applyWrites (chunkWrites config stackName c i) service.resources } := by
  unfold addChunk chunkWrites applyWrites
  simp only [List.foldl_cons, List.foldl_map, set_eq]
  generalize setRes service.resources (ruleId (i + 1)) _ = r
  induction c generalizing r with
  | nil => rfl
  | cons t ts ih => simp only [List.foldl_cons, set_eq]; exact ih _

theorem applyWrites_append (a b : List (String × JVal)) (r : JVal) :
    applyWrites (a ++ b) r = applyWrites b (applyWrites a r) := by
  simp [applyWrites, List.foldl_append]

theorem forEachIdx_addChunk (config : JVal) (stackName : String) (cs : List (List Target)) :
    ∀ (i : Nat) (service : Service),
      forEachIdx (addChunk config stackName) cs i service
        = { service with
            resources := applyWrites (writesFrom config stackName cs i) service.resources } := by
  induction cs with
  | nil => intro i service; rfl
  | cons c cs ih =>
    intro i service
    simp only [forEachIdx, writesFrom, applyWrites_append]
    rw [ih, addChunk_eq]

/-! ## Chunks -/

theorem chunk_eq_slices (targets : List Target) :
    chunk targets TARGETS_PER_RULE
      = (List.range (ruleCount targets.length)).map (slice targets) := by
  unfold chunk ruleCount
  by_cases h : targets.length = 0
  · simp [h, TARGETS_PER_RULE]
  · have : ¬ (targets.length = 0 ∨ TARGETS_PER_RULE < 1) := by
      simp [h, TARGETS_PER_RULE]
    rw [if_neg this]
    rfl

theorem ruleCount_bounds (n : Nat) :
    n ≤ TARGETS_PER_RULE * ruleCount n ∧ TARGETS_PER_RULE * ruleCount n < n + TARGETS_PER_RULE := by
  unfold ruleCount TARGETS_PER_RULE
  omega

theorem slice_length (targets : List Target) (i : Nat) :
    (slice targets i).length = min TARGETS_PER_RULE (targets.length - i * TARGETS_PER_RULE) := by
  simp [slice, List.length_take, List.length_drop]

theorem mem_of_mem_slice {targets : List Target} {i : Nat} {t : Target}
    (h : t ∈ slice targets i) : t ∈ targets :=
  List.mem_of_mem_drop (List.mem_of_mem_take h)

theorem join_slices : ∀ (n : Nat) (l : List Target), l.length ≤ TARGETS_PER_RULE * n →
    ((List.range n).map (slice l)).flatten = l := by
  intro n
  induction n with
  | zero =>
    intro l h
    have : l = [] := List.eq_nil_of_length_eq_zero (by omega)
    simp [this]
  | succ n ih =>
    intro l h
    rw [List.range_succ_eq_map, List.map_cons, List.map_map, List.flatten_cons]
    have hshift : (slice l ∘ Nat.succ) = slice (l.drop TARGETS_PER_RULE) := by
      funext i
      simp only [Function.comp, slice, List.drop_drop]
      congr 2
      simp only [TARGETS_PER_RULE]; omega
    rw [hshift, ih (l.drop TARGETS_PER_RULE)
      (by simp only [List.length_drop, TARGETS_PER_RULE] at h ⊢; omega)]
    simp [slice, List.take_append_drop]

/-! ## The writes of a run -/

theorem mem_chunkWrites {config : JVal} {stackName : String} {c : List Target} {i : Nat}
    {w : String × JVal} :
    w ∈ chunkWrites config stackName c i ↔
      w = (ruleId (i + 1), ruleResource config stackName (i + 1) c) ∨
      ∃ t ∈ c, w = (permissionId (ruleId (i + 1)) t, permissionResource (ruleId (i + 1)) t) := by
  simp only [chunkWrites, List.mem_cons, List.mem_map]
  constructor
  · rintro (h | ⟨t, ht, rfl⟩)
    · exact Or.inl h
    · exact Or.inr ⟨t, ht, rfl⟩
  · rintro (h | ⟨t, ht, rfl⟩)
    · exact Or.inl h
    · exact Or.inr ⟨t, ht, rfl⟩

theorem mem_writesFrom {config : JVal} {stackName : String} {w : String × JVal} :
    ∀ (cs : List (List Target)) (s : Nat),
      w ∈ writesFrom config stackName cs s ↔
        ∃ j c, cs[j]? = some c ∧ w ∈ chunkWrites config stackName c (s + j) := by
  intro cs
  induction cs with
  | nil => intro s; simp [writesFrom]
  | cons c cs ih =>
    intro s
    simp only [writesFrom, List.mem_append, ih]
    constructor
    · rintro (h | ⟨j, c', hj, hw⟩)
      · exact ⟨0, c, by simp, by simpa using h⟩
      · exact ⟨j + 1, c', by simpa using hj, by
          have : s + 1 + j = s + (j + 1) := by omega
          rwa [this] at hw⟩
    · rintro ⟨j, c', hj, hw⟩
      cases j with
      | zero =>
        simp only [List.getElem?_cons_zero, Option.some.injEq] at hj
        subst hj
        exact Or.inl (by simpa using hw)
      | succ j =>
        refine Or.inr ⟨j, c', by simpa using hj, ?_⟩
        have : s + 1 + j = s + (j + 1) := by omega
        rwa [this]

theorem mem_runWrites {naming : Naming} {custom : JVal} {fns : List (String × JVal)}
    {w : String × JVal} :
    w ∈ runWrites naming custom fns ↔
      ∃ i, i < ruleCount (runTargets naming custom fns).length ∧
        w ∈ chunkWrites (warmupConfig custom) naming.getStackName
          (slice (runTargets naming custom fns) i) i := by
  unfold runWrites
  rw [mem_writesFrom, chunk_eq_slices]
  constructor
  · rintro ⟨j, c, hj, hw⟩
    rw [List.getElem?_map] at hj
    cases hr : (List.range (ruleCount (runTargets naming custom fns).length))[j]? with
    | none => rw [hr] at hj; simp at hj
    | some x =>
      rw [hr] at hj
      simp only [Option.map_some', Option.some.injEq] at hj
      have hx := List.getElem?_eq_some_iff.1 hr
      obtain ⟨hlt, hxe⟩ := hx
      simp only [List.length_range] at hlt
      simp only [List.getElem_range] at hxe
      subst hxe hj
      exact ⟨j, hlt, by simpa using hw⟩
  · rintro ⟨i, hi, hw⟩
    refine ⟨i, slice (runTargets naming custom fns) i, ?_, by simpa using hw⟩
    rw [List.getElem?_map, List.getElem?_range hi]
    rfl

theorem runWrites_notNumeral {naming : Naming} {custom : JVal} {fns : List (String × JVal)} :
    ∀ w ∈ runWrites naming custom fns, NotNumeral w.1 := by
  intro w hw
  obtain ⟨i, _, hw⟩ := mem_runWrites.1 hw
  rcases mem_chunkWrites.1 hw with rfl | ⟨t, _, rfl⟩
  · exact ruleId_notNumeral _
  · exact permissionId_notNumeral _ _

/-! ## The reducer and the run -/

theorem reduceTargets_eq (naming : Naming) (input : JVal) :
    ∀ (fns : List (String × JVal)) (acc : List Target),
      (∀ e ∈ fns, isNullish e.2 = false) →
      reduceTargets naming input fns acc = .ok (acc ++ targetList naming input fns) := by
  intro fns
  induction fns with
  | nil => intro acc _; simp [reduceTargets, targetList]
  | cons e rest ih =>
    intro acc h
    obtain ⟨name, d⟩ := e
    have hd : isNullish d = false := h (name, d) (List.mem_cons_self _ _)
    have hrest : ∀ e ∈ rest, isNullish e.2 = false :=
      fun x hx => h x (List.mem_cons_of_mem _ hx)
    by_cases he : isEligible d = true
    · simp only [reduceTargets, hd, he, if_true, Bool.false_eq_true, if_false]
      rw [ih _ hrest]
      simp [targetList, List.filter_cons, he]
    · simp only [reduceTargets, hd, he, Bool.false_eq_true, if_false]
      rw [ih _ hrest]
      simp [targetList, List.filter_cons, he]

theorem applyWrites_nil (r : JVal) : applyWrites [] r = r := rfl

/-- The run on a functions object whose definitions are objects, past the stage
gate: the service after the call carries the writes of the run. -/
theorem addWarmupRule_eq (naming : Naming) (stage : JVal) (service : Service)
    (fns : List (String × JVal)) (hf : service.functions = .obj fns)
    (hwf : ∀ e ∈ fns, isNullish e.2 = false)
    (hgate : stageBlocked service.custom stage = false) :
    addWarmupRule naming stage service
      = .ok { service with
          resources := applyWrites (runWrites naming service.custom fns) service.resources } := by
  unfold addWarmupRule
  have h1 : typeofObject service.functions = true := by rw [hf]; rfl
  have h2 : isNullish service.functions = false := by rw [hf]; rfl
  have h3 : entries service.functions = fns := by rw [hf]; rfl
  unfold stageBlocked at hgate
  simp only [h1, h2, h3, hgate, Bool.not_true, Bool.false_eq_true, if_false]
  rw [reduceTargets_eq naming _ fns [] hwf]
  simp only [List.nil_append]
  by_cases hn : (targetList naming (jsonStringify ((JVal.get (warmupConfig service.custom) "payload").or
      DEFAULT_PAYLOAD)) fns).length = 0
  · have ht : runTargets naming service.custom fns = [] :=
      List.eq_nil_of_length_eq_zero hn
    simp only [hn, if_true]
    simp [runWrites, ht, chunk, writesFrom, applyWrites_nil]
  · simp only [hn, if_false]
    rw [forEachIdx_addChunk]
    rfl

/-! ## What a run leaves under each id -/

theorem resourceAt_applyWrites (service : Service) (ws : List (String × JVal))
    (hws : ∀ w ∈ ws, NotNumeral w.1) (k : String) :
    resourceAt { service with resources := applyWrites ws service.resources } k
      = lastWrite ws k (resourceAt service k) :=
  resAt_applyWrites ws service.resources k hws

theorem mem_runTargets {naming : Naming} {custom : JVal} {fns : List (String × JVal)}
    {t : Target} (h : t ∈ runTargets naming custom fns) :
    ∃ e ∈ fns, isEligible e.2 = true ∧ t = mkTarget naming (runInput custom) e.1 := by
  simp only [runTargets, targetList, List.mem_map, List.mem_filter] at h
  obtain ⟨e, ⟨he, hel⟩, rfl⟩ := h
  exact ⟨e, he, hel, rfl⟩

theorem runTargets_length (naming : Naming) (custom : JVal) (fns : List (String × JVal)) :
    (runTargets naming custom fns).length = (fns.filter fun e => isEligible e.2).length := by
  simp [runTargets, targetList]

theorem lastWrite_rule (naming : Naming) (custom : JVal) (fns : List (String × JVal))
    {i : Nat} (hi : i < ruleCount (runTargets naming custom fns).length) (base : Option JVal) :
    lastWrite (runWrites naming custom fns) (ruleId (i + 1)) base
      = some (ruleResource (warmupConfig custom) naming.getStackName (i + 1)
          (slice (runTargets naming custom fns) i)) := by
  apply lastWrite_of_mem
  · exact ⟨_, mem_runWrites.2 ⟨i, hi, mem_chunkWrites.2 (Or.inl rfl)⟩, rfl⟩
  · intro w hw hk
    obtain ⟨j, _, hw⟩ := mem_runWrites.1 hw
    rcases mem_chunkWrites.1 hw with rfl | ⟨t, _, rfl⟩
    · have : j + 1 = i + 1 := ruleId_injective hk
      have hji : j = i := by omega
      subst hji
      rfl
    · exact absurd hk.symm (ruleId_ne_permissionId _ _ _)

theorem lastWrite_rule_outside (naming : Naming) (custom : JVal) (fns : List (String × JVal))
    {k : Nat} (hk : ∀ i, i < ruleCount (runTargets naming custom fns).length → k ≠ i + 1)
    (base : Option JVal) :
    lastWrite (runWrites naming custom fns) (ruleId k) base = base := by
  apply lastWrite_of_not_mem
  intro w hw he
  obtain ⟨j, hj, hw⟩ := mem_runWrites.1 hw
  rcases mem_chunkWrites.1 hw with rfl | ⟨t, _, rfl⟩
  · exact hk j hj (ruleId_injective he).symm
  · exact ruleId_ne_permissionId _ _ _ he.symm

theorem lastWrite_permission (naming : Naming) (custom : JVal) (fns : List (String × JVal))
    (hdigit : ∀ e ∈ fns, isEligible e.2 = true →
      startsWithDigit (naming.getLambdaLogicalId e.1) = false)
    {i : Nat} (hi : i < ruleCount (runTargets naming custom fns).length)
    {t : Target} (ht : t ∈ slice (runTargets naming custom fns) i) (base : Option JVal) :
    lastWrite (runWrites naming custom fns) (permissionId (ruleId (i + 1)) t) base
      = some (permissionResource (ruleId (i + 1)) t) := by
  have hstart : ∀ t' ∈ runTargets naming custom fns, startsWithDigit t'.Id = false := by
    intro t' ht'
    obtain ⟨e, he, hel, rfl⟩ := mem_runTargets ht'
    rw [startsWithDigit_mkTarget]
    exact hdigit e he hel
  apply lastWrite_of_mem
  · exact ⟨_, mem_runWrites.2 ⟨i, hi, mem_chunkWrites.2 (Or.inr ⟨t, ht, rfl⟩)⟩, rfl⟩
  · intro w hw hk
    obtain ⟨j, _, hw⟩ := mem_runWrites.1 hw
    rcases mem_chunkWrites.1 hw with rfl | ⟨t', ht', rfl⟩
    · exact absurd hk (ruleId_ne_permissionId _ _ _)
    · have ht1 := mem_of_mem_slice ht
      have ht2 := mem_of_mem_slice ht'
      obtain ⟨hji, hid⟩ := permissionId_injective (hstart t' ht2) (hstart t ht1) hk
      have hji' : j = i := by omega
      subst hji'
      obtain ⟨e, _, _, rfl⟩ := mem_runTargets ht1
      obtain ⟨e', _, _, rfl⟩ := mem_runTargets ht2
      rw [mkTarget_eq_of_Id hid]

theorem lastWrite_untouched (naming : Naming) (custom : JVal) (fns : List (String × JVal))
    {k : String}
    (hrule : ∀ i, i < ruleCount (runTargets naming custom fns).length → k ≠ ruleId (i + 1))
    (hperm : ∀ i, i < ruleCount (runTargets naming custom fns).length →
      ∀ t ∈ slice (runTargets naming custom fns) i, k ≠ permissionId (ruleId (i + 1)) t)
    (base : Option JVal) :
    lastWrite (runWrites naming custom fns) k base = base := by
  apply lastWrite_of_not_mem
  intro w hw he
  obtain ⟨j, hj, hw⟩ := mem_runWrites.1 hw
  rcases mem_chunkWrites.1 hw with rfl | ⟨t, ht, rfl⟩
  · exact hrule j hj he.symm
  · exact hperm j hj t ht he.symm

theorem slice_eq_take_min (targets : List Target) (i : Nat) :
    slice targets i
      = (targets.drop (TARGETS_PER_RULE * i)).take
          (min (TARGETS_PER_RULE * (i + 1)) targets.length - TARGETS_PER_RULE * i) := by
  unfold slice
  rw [Nat.mul_comm i]
  by_cases h : TARGETS_PER_RULE * (i + 1) ≤ targets.length
  · congr 1
    simp only [TARGETS_PER_RULE] at h ⊢
    omega
  · rw [List.take_of_length_le, List.take_of_length_le]
    · simp only [List.length_drop, TARGETS_PER_RULE] at h ⊢; omega
    · simp only [List.length_drop, TARGETS_PER_RULE] at h ⊢; omega

theorem slice_length_bounds (targets : List Target) {i : Nat}
    (hi : i < ruleCount targets.length) :
    1 ≤ (slice targets i).length ∧ (slice targets i).length ≤ TARGETS_PER_RULE := by
  rw [slice_length]
  unfold ruleCount at hi
  simp only [TARGETS_PER_RULE] at hi ⊢
  omega

theorem slice_last_length (targets : List Target) (h : 1 ≤ targets.length) :
    (slice targets (ruleCount targets.length - 1)).length
      = if targets.length % TARGETS_PER_RULE = 0 then TARGETS_PER_RULE
        else targets.length % TARGETS_PER_RULE := by
  rw [slice_length]
  unfold ruleCount
  simp only [TARGETS_PER_RULE]
  split <;> omega

/-! ## Ids as keys of a lodash path -/

theorem pathSafe_append (a b : String) : pathSafe (a ++ b) = (pathSafe a && pathSafe b) := by
  simp [pathSafe, String.data_append, List.all_append]

theorem pathSafe_of_isDigit {s : String} (h : ∀ c ∈ s.data, c.isDigit = true) :
    pathSafe s = true := by
  unfold pathSafe
  rw [List.all_eq_true]
  intro c hc
  have hd := h c hc
  simp only [Char.isDigit, Bool.and_eq_true, decide_eq_true_eq] at hd
  have h1 : c.toNat ≠ 46 := by
    intro h46
    have : c.val.toNat = 46 := h46
    have h48 : (48 : UInt32).toNat ≤ c.val.toNat := UInt32.le_def.1 hd.1
    rw [this] at h48
    exact absurd h48 (by decide)
  have h2 : c.toNat ≠ 91 := by
    intro h91
    have : c.val.toNat = 91 := h91
    have h57 : c.val.toNat ≤ (57 : UInt32).toNat := UInt32.le_def.1 hd.2
    rw [this] at h57
    exact absurd h57 (by decide)
  have h3 : c.toNat ≠ 93 := by
    intro h93
    have : c.val.toNat = 93 := h93
    have h57 : c.val.toNat ≤ (57 : UInt32).toNat := UInt32.le_def.1 hd.2
    rw [this] at h57
    exact absurd h57 (by decide)
  simp [h1, h2, h3]

theorem pathSafe_ruleId (i : Nat) : pathSafe (ruleId i) = true := by
  unfold ruleId
  rw [pathSafe_append, pathSafe_of_isDigit (toString_nat_isDigit i)]
  rfl

theorem pathSafe_permissionId (naming : Naming) (input : JVal) (i : Nat) {name : String}
    (h : pathSafe (naming.getLambdaLogicalId name) = true) :
    pathSafe (permissionId (ruleId i) (mkTarget naming input name)) = true := by
  unfold permissionId mkTarget
  simp only [pathSafe_append, pathSafe_ruleId, h, Bool.true_and, Bool.and_true]
  rfl

theorem pathSafe_runWrites {naming : Naming} {custom : JVal} {fns : List (String × JVal)}
    (hpath : ∀ e ∈ fns, isEligible e.2 = true →
      pathSafe (naming.getLambdaLogicalId e.1) = true) :
    ∀ w ∈ runWrites naming custom fns, pathSafe w.1 = true := by
  intro w hw
  obtain ⟨i, _, hw⟩ := mem_runWrites.1 hw
  rcases mem_chunkWrites.1 hw with rfl | ⟨t, ht, rfl⟩
  · exact pathSafe_ruleId _
  · obtain ⟨e, he, hel, rfl⟩ := mem_runTargets (mem_of_mem_slice ht)
    exact pathSafe_permissionId naming _ _ (hpath e he hel)

/-! ## C1 -/

/-- C1: for a functions object with `N ≥ 1` eligible functions, logical ids free of
the path separators `.`, `[` and `]`, and a stage gate that lets the run through,
`addWarmupRule` returns, and with `R = ceil(N / 5)` the rule ids it writes are exactly
`LambdaWarmupEventsRule1 .. LambdaWarmupEventsRule<R>`: rule `i + 1` is stored with
`Targets` equal to the slice of the ordered target list from position `5 i` up to
`min (5 (i + 1)) N`, which holds between 1 and 5 targets; no other rule id is touched;
the last rule holds `N mod 5` targets (5 when 5 divides `N`); the slices in index order
concatenate to the whole target list; and every id the run passes to `set` is one key
of the path. -/
theorem C1_rules_are_consecutive_slices (naming : Naming) (stage : JVal) (service : Service)
    (fns : List (String × JVal)) (targets : List Target) (N R : Nat)
    (hf : service.functions = .obj fns)
    (hwf : ∀ e ∈ fns, isNullish e.2 = false)
    (hpath : ∀ e ∈ fns, isEligible e.2 = true →
      pathSafe (naming.getLambdaLogicalId e.1) = true)
    (hgate : stageBlocked service.custom stage = false)
    (ht : targets = runTargets naming service.custom fns)
    (hN : N = (fns.filter fun e => isEligible e.2).length)
    (hpos : 1 ≤ N)
    (hR : R = ruleCount N) :
    ∃ service', addWarmupRule naming stage service = .ok service' ∧
      targets.length = N ∧
      (N ≤ 5 * R ∧ 5 * R < N + 5) ∧
      (∀ i, i < R →
        resourceAt service' (ruleId (i + 1))
          = some (ruleResource (warmupConfig service.custom) naming.getStackName (i + 1)
              (slice targets i)) ∧
        JVal.get (JVal.get (ruleResource (warmupConfig service.custom) naming.getStackName
            (i + 1) (slice targets i)) "Properties") "Targets"
          = .arr ((slice targets i).map Target.toJVal) [] ∧
        slice targets i = (targets.drop (5 * i)).take (min (5 * (i + 1)) N - 5 * i) ∧
        1 ≤ (slice targets i).length ∧ (slice targets i).length ≤ 5) ∧
      (∀ k, (∀ i, i < R → k ≠ i + 1) →
        resourceAt service' (ruleId k) = resourceAt service (ruleId k)) ∧
      (slice targets (R - 1)).length = (if N % 5 = 0 then 5 else N % 5) ∧
      ((List.range R).map (slice targets)).flatten = targets ∧
      (∀ i, i < R → pathSafe (ruleId (i + 1)) = true ∧
        ∀ t ∈ slice targets i, pathSafe (permissionId (ruleId (i + 1)) t) = true) := by
  have hlen : targets.length = N := by rw [ht, hN, runTargets_length]
  subst hR
  refine ⟨_, addWarmupRule_eq naming stage service fns hf hwf hgate, hlen, ?_, ?_, ?_, ?_, ?_, ?_⟩
  · have := ruleCount_bounds N
    simpa [TARGETS_PER_RULE] using this
  · intro i hi
    have hi' : i < ruleCount (runTargets naming service.custom fns).length := by
      rw [← ht, hlen]; exact hi
    refine ⟨?_, rfl, ?_, ?_⟩
    · rw [resourceAt_applyWrites _ _ runWrites_notNumeral, ht]
      exact lastWrite_rule naming service.custom fns hi' _
    · have := slice_eq_take_min targets i
      rw [hlen] at this
      exact this
    · have := slice_length_bounds targets (i := i) (by rw [hlen]; exact hi)
      exact this
  · intro k hk
    rw [resourceAt_applyWrites _ _ runWrites_notNumeral]
    apply lastWrite_rule_outside
    rw [← ht, hlen]
    exact hk
  · have := slice_last_length targets (by omega)
    rw [hlen] at this
    exact this
  · have hb := ruleCount_bounds N
    exact join_slices (ruleCount N) targets (by rw [hlen]; exact hb.1)
  · intro i _
    refine ⟨pathSafe_ruleId _, ?_⟩
    intro t hmem
    rw [ht] at hmem
    obtain ⟨e, he, hel, rfl⟩ := mem_runTargets (mem_of_mem_slice hmem)
    exact pathSafe_permissionId naming _ _ (hpath e he hel)

theorem C1_rules_are_consecutive_slices_witness :
    ∃ service', addWarmupRule exNaming (.str "dev") (exService 6) = .ok service' ∧
      resourceAt service' (ruleId 2)
        = some (ruleResource (.obj []) "foo-dev" 2
            [mkTarget exNaming (.str "\x7b\"source\":\"serverless-plugin-lambda-warmup\"\x7d")
              "function6"]) ∧
      resourceAt service' (ruleId 3) = none := by
  obtain ⟨s, h1, _, _, h4, h5, _⟩ :=
    C1_rules_are_consecutive_slices exNaming (.str "dev") (exService 6) (exFunctions 6)
      (runTargets exNaming .undefined (exFunctions 6)) 6 2 rfl (by decide) (by decide) rfl rfl rfl
      (by decide) rfl
  exact ⟨s, h1, (h4 1 (by decide)).1, h5 3 (by decide)⟩

/-! ## A run on an absent resource tree -/

theorem upsert_of_not_mem (ps : List (String × JVal)) (k : String) (v : JVal)
    (h : ∀ p ∈ ps, p.1 ≠ k) : upsert ps k v = ps ++ [(k, v)] := by
  induction ps with
  | nil => rfl
  | cons p rest ih =>
    obtain ⟨a, b⟩ := p
    have ha : ¬ a = k := h (a, b) (List.mem_cons_self _ _)
    simp only [upsert, ha, if_false, List.cons_append]
    rw [ih (fun x hx => h x (List.mem_cons_of_mem _ hx))]

theorem setRes_tree (ps : List (String × JVal)) (k : String) (v : JVal) :
    setRes (JVal.obj [("Resources", JVal.obj ps)]) k v
      = JVal.obj [("Resources", JVal.obj (upsert ps k v))] := by
  have hg : JVal.get (JVal.obj [("Resources", JVal.obj ps)]) "Resources" = JVal.obj ps := rfl
  rw [setRes_of_isObject (r := JVal.obj [("Resources", JVal.obj ps)]) rfl (by rw [hg]; rfl), hg]
  simp [assign, upsert]

theorem applyWrites_tree (ws : List (String × JVal)) :
    ∀ ps : List (String × JVal), (ps.map Prod.fst ++ ws.map Prod.fst).Nodup →
      applyWrites ws (JVal.obj [("Resources", JVal.obj ps)])
        = JVal.obj [("Resources", JVal.obj (ps ++ ws))] := by
  induction ws with
  | nil => intro ps _; simp [applyWrites]
  | cons w ws ih =>
    intro ps h
    obtain ⟨k, v⟩ := w
    have hk : ∀ p ∈ ps, p.1 ≠ k := by
      intro p hp e
      have h1 := (List.nodup_append.1 h).2.2
      exact h1 (List.mem_map_of_mem Prod.fst hp) (by simp [e])
    have hstep : applyWrites ((k, v) :: ws) (JVal.obj [("Resources", JVal.obj ps)])
        = applyWrites ws (setRes (JVal.obj [("Resources", JVal.obj ps)]) k v) := rfl
    rw [hstep, setRes_tree, upsert_of_not_mem ps k v hk, ih (ps ++ [(k, v)])]
    · simp
    · simpa [List.append_assoc] using h

theorem applyWrites_undefined (ws : List (String × JVal)) (hne : ws ≠ [])
    (h : (ws.map Prod.fst).Nodup) :
    applyWrites ws JVal.undefined = JVal.obj [("Resources", JVal.obj ws)] := by
  cases ws with
  | nil => exact absurd rfl hne
  | cons w ws =>
    obtain ⟨k, v⟩ := w
    have hstep : applyWrites ((k, v) :: ws) JVal.undefined
        = applyWrites ws (setRes JVal.undefined k v) := rfl
    rw [hstep, setRes_of_not_isObject (r := JVal.undefined) rfl, applyWrites_tree ws [(k, v)] (by simpa using h)]
    rfl

/-! ## Distinct ids -/

theorem permissionId_injective_right (r : String) {t t' : Target}
    (h : permissionId r t = permissionId r t') : t.Id = t'.Id := by
  have h' := congrArg String.data h
  rw [permissionId_data, permissionId_data] at h'
  exact String.ext (List.append_cancel_right (List.append_cancel_left h'))

theorem nodup_chunkWrites (config : JVal) (stackName : String) (c : List Target) (i : Nat)
    (hc : (c.map Target.Id).Nodup) :
    ((chunkWrites config stackName c i).map Prod.fst).Nodup := by
  simp only [chunkWrites, List.map_cons, List.map_map, List.nodup_cons, List.mem_map,
    Function.comp, not_exists, not_and]
  refine ⟨fun t _ e => ruleId_ne_permissionId _ _ _ e.symm, ?_⟩
  have hmap : List.map (fun t => permissionId (ruleId (i + 1)) t) c
      = (c.map Target.Id).map (fun id => ruleId (i + 1) ++ id ++ "Permission") := by
    simp [permissionId, Function.comp]
  have hinj : Function.Injective (fun id : String => ruleId (i + 1) ++ id ++ "Permission") := by
    intro a b hab
    have h' := congrArg String.data hab
    simp only [String.data_append] at h'
    exact String.ext (List.append_cancel_left (List.append_cancel_right h'))
  show (List.map (fun t => permissionId (ruleId (i + 1)) t) c).Nodup
  rw [hmap]
  exact hc.map hinj

theorem nodup_writesFrom (config : JVal) (stackName : String) :
    ∀ (cs : List (List Target)) (s : Nat),
      (∀ c ∈ cs, (c.map Target.Id).Nodup) →
      (∀ c ∈ cs, ∀ t ∈ c, startsWithDigit t.Id = false) →
      ((writesFrom config stackName cs s).map Prod.fst).Nodup := by
  intro cs
  induction cs with
  | nil => intro s _ _; simp [writesFrom]
  | cons c cs ih =>
    intro s hnd hdig
    simp only [writesFrom, List.map_append]
    rw [List.nodup_append]
    refine ⟨nodup_chunkWrites _ _ c s (hnd c (List.mem_cons_self _ _)),
      ih (s + 1) (fun c' hc' => hnd c' (List.mem_cons_of_mem _ hc'))
        (fun c' hc' => hdig c' (List.mem_cons_of_mem _ hc')), ?_⟩
    intro k hk1 hk2
    obtain ⟨w1, hw1, rfl⟩ := List.mem_map.1 hk1
    obtain ⟨w2, hw2, he⟩ := List.mem_map.1 hk2
    obtain ⟨j, c', hj, hw2⟩ := (mem_writesFrom cs (s + 1)).1 hw2
    have hc' : c' ∈ cs := List.getElem?_mem hj
    rcases mem_chunkWrites.1 hw1 with rfl | ⟨t, ht, rfl⟩
    · rcases mem_chunkWrites.1 hw2 with rfl | ⟨t', _, rfl⟩
      · have := ruleId_injective he
        omega
      · exact ruleId_ne_permissionId _ _ _ he.symm
    · rcases mem_chunkWrites.1 hw2 with rfl | ⟨t', ht', rfl⟩
      · exact ruleId_ne_permissionId _ _ _ he
      · have := (permissionId_injective
          (hdig c' (List.mem_cons_of_mem _ hc') t' ht')
          (hdig c (List.mem_cons_self _ _) t ht) he).1
        omega

theorem nodup_runTargets_Id (naming : Naming) (custom : JVal) (fns : List (String × JVal))
    (hdistinct : ((fns.filter fun e => isEligible e.2).map
      fun e => naming.getLambdaLogicalId e.1).Nodup) :
    ((runTargets naming custom fns).map Target.Id).Nodup := by
  have hmap : (runTargets naming custom fns).map Target.Id
      = ((fns.filter fun e => isEligible e.2).map fun e => naming.getLambdaLogicalId e.1).map
          (fun l => l ++ "Schedule") := by
    simp [runTargets, targetList, mkTarget, Function.comp]
  rw [hmap]
  apply hdistinct.map
  intro a b hab
  have h' := congrArg String.data hab
  simp only [String.data_append] at h'
  exact String.ext (List.append_cancel_right h')

theorem nodup_runWrites (naming : Naming) (custom : JVal) (fns : List (String × JVal))
    (hdistinct : ((fns.filter fun e => isEligible e.2).map
      fun e => naming.getLambdaLogicalId e.1).Nodup)
    (hdigit : ∀ e ∈ fns, isEligible e.2 = true →
      startsWithDigit (naming.getLambdaLogicalId e.1) = false) :
    ((runWrites naming custom fns).map Prod.fst).Nodup := by
  unfold runWrites
  rw [chunk_eq_slices]
  apply nodup_writesFrom
  · intro c hc
    obtain ⟨i, _, rfl⟩ := List.mem_map.1 hc
    have hsub : (slice (runTargets naming custom fns) i).Sublist (runTargets naming custom fns) :=
      (List.take_sublist _ _).trans (List.drop_sublist _ _)
    exact (nodup_runTargets_Id naming custom fns hdistinct).sublist (hsub.map _)
  · intro c hc t ht
    obtain ⟨i, _, rfl⟩ := List.mem_map.1 hc
    obtain ⟨e, he, hel, rfl⟩ := mem_runTargets (mem_of_mem_slice ht)
    rw [startsWithDigit_mkTarget]
    exact hdigit e he hel

/-! ## Counting by `Type` -/

theorem count_chunkWrites_permission (config : JVal) (stackName : String) (c : List Target)
    (i : Nat) :
    ((chunkWrites config stackName c i).filter fun e =>
      strictEq (JVal.get e.2 "Type") (.str "AWS::Lambda::Permission")).length = c.length := by
  have hrule : strictEq (JVal.get (ruleResource config stackName (i + 1) c) "Type")
      (.str "AWS::Lambda::Permission") = false := rfl
  simp only [chunkWrites, List.filter_cons, hrule, Bool.false_eq_true, if_false]
  rw [List.filter_eq_self.2, List.length_map]
  intro e he
  obtain ⟨t, _, rfl⟩ := List.mem_map.1 he
  rfl

theorem count_writesFrom_permission (config : JVal) (stackName : String) :
    ∀ (cs : List (List Target)) (s : Nat),
      ((writesFrom config stackName cs s).filter fun e =>
        strictEq (JVal.get e.2 "Type") (.str "AWS::Lambda::Permission")).length
        = cs.flatten.length := by
  intro cs
  induction cs with
  | nil => intro s; rfl
  | cons c cs ih =>
    intro s
    simp only [writesFrom, List.filter_append, List.length_append, List.flatten_cons,
      count_chunkWrites_permission, ih]

theorem count_runWrites_permission (naming : Naming) (custom : JVal)
    (fns : List (String × JVal)) :
    ((runWrites naming custom fns).filter fun e =>
      strictEq (JVal.get e.2 "Type") (.str "AWS::Lambda::Permission")).length
      = (runTargets naming custom fns).length := by
  unfold runWrites
  rw [count_writesFrom_permission, chunk_eq_slices,
    join_slices _ _ (ruleCount_bounds _).1]

/-! ## C2 -/

set_option maxRecDepth 100000 in
/-- C2, as stated, fails: forty-six eligible functions with pairwise distinct logical
ids (`0XLambdaFunction` in rule 1, `XLambdaFunction` in rule 10) on an absent resource
tree leave forty-five entries of type `AWS::Lambda::Permission`, since
`LambdaWarmupEventsRule1` followed by `0X...` and `LambdaWarmupEventsRule10` followed by
`X...` are the same permission id. -/
theorem C2_counterexample :
    (exCollidingFunctions.filter fun e => isEligible e.2).length = 46 ∧
    ((exCollidingFunctions.filter fun e => isEligible e.2).map
      fun e => exNaming.getLambdaLogicalId e.1).Nodup ∧
    (addWarmupRule exNaming (.str "dev") exCollidingService).toOption.map
      (fun s => countType s.resources "AWS::Lambda::Permission") = some 45 := by
  refine ⟨by decide, by decide, rfl⟩

/-- C2 (amended): for a functions object with `N` eligible functions whose logical ids
are pairwise distinct, none of which begins with a decimal digit or contains one of the
path separators `.`, `[` and `]`, a run of `addWarmupRule` past the stage gate on a
service without resource tree leaves exactly `N` entries of type
`AWS::Lambda::Permission`, under pairwise distinct ids, and every id in the tree is one
key of the path it was written to. -/
theorem C2_permission_count (naming : Naming) (stage : JVal) (service : Service)
    (fns : List (String × JVal))
    (hf : service.functions = .obj fns)
    (hwf : ∀ e ∈ fns, isNullish e.2 = false)
    (hgate : stageBlocked service.custom stage = false)
    (hres : service.resources = .undefined)
    (hdistinct : ((fns.filter fun e => isEligible e.2).map
      fun e => naming.getLambdaLogicalId e.1).Nodup)
    (hdigit : ∀ e ∈ fns, isEligible e.2 = true →
      startsWithDigit (naming.getLambdaLogicalId e.1) = false)
    (hpath : ∀ e ∈ fns, isEligible e.2 = true →
      pathSafe (naming.getLambdaLogicalId e.1) = true) :
    ∃ service', addWarmupRule naming stage service = .ok service' ∧
      countType service'.resources "AWS::Lambda::Permission"
        = (fns.filter fun e => isEligible e.2).length ∧
      (((entries (JVal.get service'.resources "Resources")).filter fun e =>
        strictEq (JVal.get e.2 "Type") (.str "AWS::Lambda::Permission")).map Prod.fst).Nodup ∧
      ∀ e ∈ entries (JVal.get service'.resources "Resources"), pathSafe e.1 = true := by
  refine ⟨_, addWarmupRule_eq naming stage service fns hf hwf hgate, ?_⟩
  have hcount := count_runWrites_permission naming service.custom fns
  rw [runTargets_length] at hcount
  simp only [hres]
  by_cases hne : runWrites naming service.custom fns = []
  · rw [hne] at hcount
    rw [hne, applyWrites_nil, ← hcount]
    exact ⟨rfl, List.nodup_nil, fun e he => absurd he (List.not_mem_nil e)⟩
  · have hnd := nodup_runWrites naming service.custom fns hdistinct hdigit
    rw [applyWrites_undefined _ hne hnd]
    have hR : JVal.get (JVal.obj [("Resources", JVal.obj (runWrites naming service.custom fns))])
        "Resources" = JVal.obj (runWrites naming service.custom fns) := rfl
    refine ⟨?_, ?_, ?_⟩
    · unfold countType
      rw [hR]
      exact hcount
    · rw [hR]
      exact hnd.sublist ((List.filter_sublist _).map _)
    · rw [hR]
      exact pathSafe_runWrites hpath

theorem C2_permission_count_witness :
    ∃ service', addWarmupRule exNaming (.str "dev") (exService 6) = .ok service' ∧
      countType service'.resources "AWS::Lambda::Permission" = 6 := by
  obtain ⟨s, h1, h2, _⟩ :=
    C2_permission_count exNaming (.str "dev") (exService 6) (exFunctions 6) rfl (by decide)
      rfl rfl (by decide) (by decide) (by decide)
  exact ⟨s, h1, h2⟩

/-! ## C3 -/

set_option maxRecDepth 100000 in
/-- C3, as stated, fails: with the forty-six functions of `exCollidingFunctions` the
target of `0X` is the first target of rule 1, yet the permission stored under
`LambdaWarmupEventsRule1` + its id + `Permission` is the one written later for the
target of `X` under rule 10: its `FunctionName` is not the `Arn` of the target and its
`SourceArn` does not name rule 1. -/
theorem C3_counterexample :
    (slice (runTargets exNaming .undefined exCollidingFunctions) 0).head?
      = some (mkTarget exNaming (runInput .undefined) "0X") ∧
    (addWarmupRule exNaming (.str "dev") exCollidingService).toOption.bind
      (fun s => resourceAt s
        (permissionId (ruleId 1) (mkTarget exNaming (runInput .undefined) "0X")))
      = some (permissionResource (ruleId 10) (mkTarget exNaming (runInput .undefined) "X")) ∧
    JVal.get (JVal.get (permissionResource (ruleId 10)
        (mkTarget exNaming (runInput .undefined) "X")) "Properties") "FunctionName"
      ≠ (mkTarget exNaming (runInput .undefined) "0X").Arn ∧
    JVal.get (JVal.get (permissionResource (ruleId 10)
        (mkTarget exNaming (runInput .undefined) "X")) "Properties") "SourceArn"
      ≠ getAtt (ruleId 1) := by
  refine ⟨rfl, rfl, ?_, ?_⟩
  · exact fun h => (by decide : ¬ serialize _ = serialize _) (congrArg serialize h)
  · exact fun h => (by decide : ¬ serialize _ = serialize _) (congrArg serialize h)

/-- C3 (amended): when no eligible function has a logical id that begins with a decimal
digit or contains one of the path separators `.`, `[` and `]`, a run past the stage
gate stores, for every rule `i + 1` it writes and every target `t` of that rule, under
the id `<RuleId><t.Id>Permission`, which is one key of the path, a permission with
`Type` `AWS::Lambda::Permission`, `Action` `lambda:InvokeFunction`, `Principal`
`events.amazonaws.com`, `FunctionName` equal to `t.Arn` and `SourceArn` equal to
`{'Fn::GetAtt': [RuleId, 'Arn']}`. -/
theorem C3_permission_of_each_target (naming : Naming) (stage : JVal) (service : Service)
    (fns : List (String × JVal)) (targets : List Target) (R : Nat)
    (hf : service.functions = .obj fns)
    (hwf : ∀ e ∈ fns, isNullish e.2 = false)
    (hgate : stageBlocked service.custom stage = false)
    (hdigit : ∀ e ∈ fns, isEligible e.2 = true →
      startsWithDigit (naming.getLambdaLogicalId e.1) = false)
    (hpath : ∀ e ∈ fns, isEligible e.2 = true →
      pathSafe (naming.getLambdaLogicalId e.1) = true)
    (ht : targets = runTargets naming service.custom fns)
    (hR : R = ruleCount targets.length) :
    ∃ service', addWarmupRule naming stage service = .ok service' ∧
      ∀ i, i < R → ∀ t ∈ slice targets i,
        resourceAt service' (ruleId (i + 1))
          = some (ruleResource (warmupConfig service.custom) naming.getStackName (i + 1)
              (slice targets i)) ∧
        pathSafe (permissionId (ruleId (i + 1)) t) = true ∧
        ∃ permission,
          resourceAt service' (permissionId (ruleId (i + 1)) t) = some permission ∧
          permissionId (ruleId (i + 1)) t = ruleId (i + 1) ++ t.Id ++ "Permission" ∧
          JVal.get permission "Type" = .str "AWS::Lambda::Permission" ∧
          JVal.get (JVal.get permission "Properties") "Action" = .str "lambda:InvokeFunction" ∧
          JVal.get (JVal.get permission "Properties") "Principal"
            = .str "events.amazonaws.com" ∧
          JVal.get (JVal.get permission "Properties") "FunctionName" = t.Arn ∧
          JVal.get (JVal.get permission "Properties") "SourceArn"
            = .obj [("Fn::GetAtt", .arr [.str (ruleId (i + 1)), .str "Arn"] [])] := by
  subst ht hR
  refine ⟨_, addWarmupRule_eq naming stage service fns hf hwf hgate, ?_⟩
  intro i hi t hmem
  refine ⟨?_, ?_, permissionResource (ruleId (i + 1)) t, ?_, rfl, rfl, rfl, rfl, rfl, rfl⟩
  · rw [resourceAt_applyWrites _ _ runWrites_notNumeral]
    exact lastWrite_rule naming service.custom fns hi _
  · obtain ⟨e, he, hel, rfl⟩ := mem_runTargets (mem_of_mem_slice hmem)
    exact pathSafe_permissionId naming _ _ (hpath e he hel)
  · rw [resourceAt_applyWrites _ _ runWrites_notNumeral]
    exact lastWrite_permission naming service.custom fns hdigit hi hmem _

theorem C3_permission_of_each_target_witness :
    ∃ service', addWarmupRule exNaming (.str "dev") (exService 6) = .ok service' ∧
      ∃ permission,
        resourceAt service' "LambdaWarmupEventsRule2Function6LambdaFunctionSchedulePermission"
          = some permission ∧
        JVal.get (JVal.get permission "Properties") "FunctionName"
          = getAtt "Function6LambdaFunction" ∧
        JVal.get (JVal.get permission "Properties") "SourceArn"
          = getAtt "LambdaWarmupEventsRule2" := by
  obtain ⟨s, h1, h2⟩ :=
    C3_permission_of_each_target exNaming (.str "dev") (exService 6) (exFunctions 6)
      (runTargets exNaming .undefined (exFunctions 6)) 2 rfl (by decide) rfl (by decide)
      (by decide) rfl rfl
  obtain ⟨_, _, p, hp, _, _, _, _, hfn, hsrc⟩ :=
    h2 1 (by decide) (mkTarget exNaming (runInput .undefined) "function6")
      (List.mem_singleton.2 rfl)
  exact ⟨s, h1, p, hp, hfn, hsrc⟩

/-! ## The run on an arbitrary service -/

theorem isEligible_of_isNullish {d : JVal} (h : isNullish d = true) : isEligible d = true := by
  cases d <;> simp_all [isNullish] <;> rfl

theorem reduceTargets_filter (naming : Naming) (input : JVal) :
    ∀ (fns : List (String × JVal)) (acc : List Target),
      reduceTargets naming input (fns.filter fun e => isEligible e.2) acc
        = reduceTargets naming input fns acc := by
  intro fns
  induction fns with
  | nil => intro acc; rfl
  | cons e rest ih =>
    intro acc
    obtain ⟨name, d⟩ := e
    by_cases hn : isNullish d = true
    · have he := isEligible_of_isNullish hn
      simp [List.filter_cons, he, reduceTargets, hn]
    · by_cases he : isEligible d = true
      · simp [List.filter_cons, he, reduceTargets, hn, ih]
      · simp [List.filter_cons, he, reduceTargets, hn, ih]

theorem reduceTargets_of_ok (naming : Naming) (input : JVal) :
    ∀ (fns : List (String × JVal)) (acc ts : List Target),
      reduceTargets naming input fns acc = .ok ts → ts = acc ++ targetList naming input fns := by
  intro fns
  induction fns with
  | nil =>
    intro acc ts h
    simp only [reduceTargets, Except.ok.injEq] at h
    simp [targetList, h]
  | cons e rest ih =>
    intro acc ts h
    obtain ⟨name, d⟩ := e
    by_cases hn : isNullish d = true
    · simp [reduceTargets, hn] at h
    · by_cases he : isEligible d = true
      · simp only [reduceTargets, hn, he, if_true, Bool.false_eq_true, if_false] at h
        rw [ih _ _ h]
        simp [targetList, List.filter_cons, he]
      · simp only [reduceTargets, hn, he, Bool.false_eq_true, if_false] at h
        rw [ih _ _ h]
        simp [targetList, List.filter_cons, he]

/-- Whatever the service, a run that returns either left the service as it was or
applied the writes of the run to its resource tree. -/
theorem addWarmupRule_of_ok (naming : Naming) (stage : JVal) (service service' : Service)
    (h : addWarmupRule naming stage service = .ok service') :
    service' = service ∨
    service' = { service with
      resources := applyWrites (runWrites naming service.custom (entries service.functions))
        service.resources } := by
  unfold addWarmupRule at h
  by_cases h1 : typeofObject service.functions = true
  · by_cases h2 : stageBlocked service.custom stage = true
    · unfold stageBlocked at h2
      simp only [h1, h2, Bool.not_true, Bool.false_eq_true, if_false, if_true,
        Except.ok.injEq] at h
      exact Or.inl h.symm
    · unfold stageBlocked at h2
      simp only [h1, h2, Bool.not_true, Bool.false_eq_true, if_false] at h
      by_cases h3 : isNullish service.functions = true
      · simp [h3] at h
      · simp only [h3, Bool.false_eq_true, if_false] at h
        cases hts : reduceTargets naming
            (jsonStringify ((JVal.get (warmupConfig service.custom) "payload").or DEFAULT_PAYLOAD))
            (entries service.functions) [] with
        | error e => rw [hts] at h; simp at h
        | ok ts =>
          rw [hts] at h
          have hts' := reduceTargets_of_ok _ _ _ _ _ hts
          simp only [List.nil_append] at hts'
          by_cases h4 : ts.length = 0
          · simp only [h4, if_true, Except.ok.injEq] at h
            exact Or.inl h.symm
          · simp only [h4, if_false, Except.ok.injEq] at h
            right
            rw [← h, forEachIdx_addChunk, hts']
            rfl
  · simp only [h1, Bool.not_false, if_true, Except.ok.injEq] at h
    exact Or.inl h.symm

/-- The run returns on every `functions` value other than `null` whose entries are
not nullish. -/
theorem addWarmupRule_returns (naming : Naming) (stage : JVal) (service : Service)
    (hnull : service.functions ≠ .null)
    (hwf : ∀ e ∈ entries service.functions, isNullish e.2 = false) :
    ∃ service', addWarmupRule naming stage service = .ok service' := by
  unfold addWarmupRule
  by_cases h1 : typeofObject service.functions = true
  · by_cases h2 : stageBlocked service.custom stage = true
    · unfold stageBlocked at h2
      simp only [h1, h2, Bool.not_true, Bool.false_eq_true, if_false, if_true]
      exact ⟨_, rfl⟩
    · unfold stageBlocked at h2
      have hn : isNullish service.functions = false := by
        cases hf : service.functions <;> simp_all [isNullish, typeofObject]
      simp only [h1, h2, hn, Bool.not_true, Bool.false_eq_true, if_false]
      rw [reduceTargets_eq naming _ _ [] hwf]
      simp only [List.nil_append]
      by_cases h4 : (targetList naming
          (jsonStringify ((JVal.get (warmupConfig service.custom) "payload").or DEFAULT_PAYLOAD))
          (entries service.functions)).length = 0
      · simp only [h4, if_true]; exact ⟨_, rfl⟩
      · simp only [h4, if_false]; exact ⟨_, rfl⟩
  · simp only [h1, Bool.not_false, if_true]
    exact ⟨_, rfl⟩

/-! ## C4 -/

/-- C4: for every functions object, configuration, stage, naming service and initial
resource tree, the resource tree after `addWarmupRule` (or the error it raises) is
the one obtained from the same object with every entry whose `warmup` flag is `false`
removed: an opted-out function adds no target, no permission and no rule, and shifts
no rule index. -/
theorem C4_opted_out_functions_are_invisible (naming : Naming) (stage : JVal)
    (fns : List (String × JVal)) (custom resources : JVal) :
    (addWarmupRule naming stage
        { functions := .obj fns, custom := custom, resources := resources }).map
        Service.resources
      = (addWarmupRule naming stage
          { functions := .obj (fns.filter fun e =>
              !(strictEq (JVal.get e.2 "warmup") (.bool false))),
            custom := custom, resources := resources }).map Service.resources := by
  have hfilter : (fns.filter fun e => !(strictEq (JVal.get e.2 "warmup") (.bool false)))
      = fns.filter fun e => isEligible e.2 := rfl
  rw [hfilter]
  unfold addWarmupRule
  have h1 : ∀ l, typeofObject (JVal.obj l) = true := fun _ => rfl
  have h2 : ∀ l, isNullish (JVal.obj l) = false := fun _ => rfl
  have h3 : ∀ l, entries (JVal.obj l) = l := fun _ => rfl
  simp only [h1, h2, h3, Bool.not_true, Bool.false_eq_true, if_false, reduceTargets_filter]
  by_cases hg : (truthy (JVal.get (warmupConfig custom) "stages") &&
      notIndexOf (concat (JVal.get (warmupConfig custom) "stages")) stage) = true
  · simp only [hg, if_true]
    rfl
  · simp only [hg, if_false]
    cases reduceTargets naming
        (jsonStringify ((JVal.get (warmupConfig custom) "payload").or DEFAULT_PAYLOAD)) fns [] with
    | error e => rfl
    | ok ts =>
      simp only []
      by_cases h4 : ts.length = 0
      · simp only [h4, if_true]; rfl
      · simp only [h4, if_false, forEachIdx_addChunk]
        rfl
/-! ## C5 -/

/-- C5: a service with no eligible function, whether `functions` is missing (or any
value that is not an object), or is an object that is empty or whose every definition
has `warmup` equal to `false`, comes out of `addWarmupRule` exactly as it went in: an
absent resource tree stays absent and an existing one is unchanged. -/
theorem C5_no_eligible_function_no_change (naming : Naming) (stage : JVal) (service : Service)
    (h : typeofObject service.functions = false ∨
      ∃ fns, service.functions = .obj fns ∧
        ∀ e ∈ fns, JVal.get e.2 "warmup" = .bool false) :
    addWarmupRule naming stage service = .ok service := by
  rcases h with h | ⟨fns, hf, hall⟩
  · unfold addWarmupRule
    simp [h]
  · by_cases hg : stageBlocked service.custom stage = true
    · unfold addWarmupRule
      unfold stageBlocked at hg
      simp [hg]
    · have hg' : stageBlocked service.custom stage = false := by simpa using hg
      have hwf : ∀ e ∈ fns, isNullish e.2 = false := by
        intro e he
        have := hall e he
        cases hd : e.2 <;> simp_all [isNullish, JVal.get, own?, entries]
      rw [addWarmupRule_eq naming stage service fns hf hwf hg']
      have hnone : runTargets naming service.custom fns = [] := by
        simp only [runTargets, targetList, List.map_eq_nil_iff, List.filter_eq_nil_iff]
        intro e he
        simp [isEligible, hall e he, strictEq]
      simp [runWrites, hnone, chunk, writesFrom, applyWrites_nil]

theorem C5_no_eligible_function_no_change_witness :
    addWarmupRule exNaming (.str "dev")
        { functions := .undefined, custom := .undefined, resources := .undefined }
      = .ok { functions := .undefined, custom := .undefined, resources := .undefined } ∧
    addWarmupRule exNaming (.str "dev")
        { functions := .obj [], custom := .undefined,
          resources := .obj [("Resources", .obj [("Gold", .obj [])])] }
      = .ok { functions := .obj [], custom := .undefined,
              resources := .obj [("Resources", .obj [("Gold", .obj [])])] } ∧
    addWarmupRule exNaming (.str "dev")
        { functions := .obj [("function1", .obj [("warmup", .bool false)])],
          custom := .undefined, resources := .undefined }
      = .ok { functions := .obj [("function1", .obj [("warmup", .bool false)])],
              custom := .undefined, resources := .undefined } :=
  ⟨C5_no_eligible_function_no_change _ _ _ (Or.inl rfl),
   C5_no_eligible_function_no_change _ _ _ (Or.inr ⟨[], rfl, by simp⟩),
   C5_no_eligible_function_no_change _ _ _
     (Or.inr ⟨[("function1", .obj [("warmup", .bool false)])], rfl, by
       intro e he
       rw [List.mem_singleton.1 he]
       rfl⟩)⟩

/-! ## C6 -/

/-- C6: when `stages` is configured, that is a truthy value such as a non-empty stage
name or a list of stage names, and the current stage is not a member of it,
`addWarmupRule` returns the service exactly as it received it, whatever `functions`
holds (even `null`); no `resources` key appears when none existed. -/
theorem C6_stage_not_listed_no_change (naming : Naming) (stage stages : JVal)
    (service : Service)
    (hcfg : JVal.get (warmupConfig service.custom) "stages" = stages)
    (hconfigured : truthy stages = true)
    (hnot : ∀ x ∈ concat stages, strictEq x stage = false) :
    addWarmupRule naming stage service = .ok service := by
  unfold addWarmupRule
  by_cases h1 : typeofObject service.functions = true
  · have hno : notIndexOf (concat stages) stage = true := by
      simp only [notIndexOf, Bool.not_eq_true', List.any_eq_false]
      intro x hx
      simp [hnot x hx]
    simp [h1, hcfg, hconfigured, hno]
  · simp [h1]

theorem C6_stage_not_listed_no_change_witness :
    addWarmupRule exNaming (.str "dev")
        { functions := .obj (exFunctions 2),
          custom := .obj [("warmup", .obj [("stages", .str "prod")])],
          resources := .undefined }
      = .ok { functions := .obj (exFunctions 2),
              custom := .obj [("warmup", .obj [("stages", .str "prod")])],
              resources := .undefined } ∧
    addWarmupRule exNaming (.str "dev")
        { functions := .obj (exFunctions 2),
          custom := .obj [("warmup", .obj [("stages", .arr [.str "staging", .str "prod"] [])])],
          resources := .undefined }
      = .ok { functions := .obj (exFunctions 2),
              custom := .obj [("warmup",
                .obj [("stages", .arr [.str "staging", .str "prod"] [])])],
              resources := .undefined } :=
  ⟨C6_stage_not_listed_no_change _ _ (.str "prod") _ rfl rfl (by
      intro x hx
      rw [List.mem_singleton.1 hx]
      rfl),
   C6_stage_not_listed_no_change _ _ (.arr [.str "staging", .str "prod"] []) _ rfl rfl (by
      intro x hx
      rcases List.mem_cons.1 hx with rfl | hx
      · rfl
      · rw [List.mem_singleton.1 hx]
        rfl)⟩

/-! ## C7 -/

/-- C7: `addWarmupRule` merges into the resource tree. For logical ids free of the path
separators `.`, `[` and `]`, so that every id of the run is one key of its path:
whenever the call returns, the entry of `resources.Resources` under any key that is
neither a rule id nor a permission id written by the run, and the entry of
`service.resources` under any key other than `Resources`, are what they were before the
call, and `functions` and `custom` are untouched; and it does return on every
`functions` value other than `null` whose definitions are not nullish. -/
theorem C7_resource_tree_is_merged (naming : Naming) (stage : JVal) (service : Service)
    (hpath : ∀ e ∈ entries service.functions, isEligible e.2 = true →
      pathSafe (naming.getLambdaLogicalId e.1) = true) :
    (∀ service', addWarmupRule naming stage service = .ok service' →
      service'.functions = service.functions ∧ service'.custom = service.custom ∧
      (∀ k, k ≠ "Resources" → own? service'.resources k = own? service.resources k) ∧
      (∀ k,
        (∀ i, i < ruleCount (runTargets naming service.custom (entries service.functions)).length →
          k ≠ ruleId (i + 1)) →
        (∀ i, i < ruleCount (runTargets naming service.custom (entries service.functions)).length →
          ∀ t ∈ slice (runTargets naming service.custom (entries service.functions)) i,
            k ≠ permissionId (ruleId (i + 1)) t) →
        resourceAt service' k = resourceAt service k)) ∧
    (∀ i, i < ruleCount (runTargets naming service.custom (entries service.functions)).length →
      pathSafe (ruleId (i + 1)) = true ∧
      ∀ t ∈ slice (runTargets naming service.custom (entries service.functions)) i,
        pathSafe (permissionId (ruleId (i + 1)) t) = true) ∧
    (service.functions ≠ .null →
      (∀ e ∈ entries service.functions, isNullish e.2 = false) →
      ∃ service', addWarmupRule naming stage service = .ok service') := by
  refine ⟨?_, ?_, addWarmupRule_returns naming stage service⟩
  · intro service' h
    rcases addWarmupRule_of_ok naming stage service service' h with rfl | rfl
    · exact ⟨rfl, rfl, fun _ _ => rfl, fun _ _ _ => rfl⟩
    · refine ⟨rfl, rfl, fun k hk => own?_applyWrites_other _ _ hk, ?_⟩
      intro k hrule hperm
      rw [resourceAt_applyWrites _ _ runWrites_notNumeral]
      exact lastWrite_untouched naming service.custom _ hrule hperm _
  · intro i _
    refine ⟨pathSafe_ruleId _, ?_⟩
    intro t hmem
    obtain ⟨e, he, hel, rfl⟩ := mem_runTargets (mem_of_mem_slice hmem)
    exact pathSafe_permissionId naming _ _ (hpath e he hel)

theorem C7_resource_tree_is_merged_witness :
    ∃ service', addWarmupRule exNaming (.str "dev") exMergeService = .ok service' ∧
      own? service'.resources "Outputs" = some (.obj []) ∧
      resourceAt service' "Gold" = some (.obj []) := by
  have hC := C7_resource_tree_is_merged exNaming (.str "dev") exMergeService (by decide)
  obtain ⟨s, hs⟩ := hC.2.2 (fun h => JVal.noConfusion h) (by decide)
  obtain ⟨_, _, hother, hres⟩ := hC.1 s hs
  refine ⟨s, hs, ?_, ?_⟩
  · rw [hother "Outputs" (by decide)]
    rfl
  · rw [hres "Gold" ?_ ?_]
    · rfl
    · intro i _ h
      have h' := congrArg String.data h
      rw [ruleId_data] at h'
      simp [RESOURCE_NAME] at h'
    · intro i _ t _ h
      have h' := congrArg String.data h
      rw [permissionId_data, ruleId_data] at h'
      simp [RESOURCE_NAME] at h'

/-! ## C8 -/

/-- C8, as stated, fails: with the payload `0` configured (a JSON-serializable value,
serialized as `0`), the target of the rule carries the serialization of the default
payload as `Input`. The same happens for `false`, `""` and `null`. -/
theorem C8_counterexample :
    jsonStringify (.num 0) = .str "0" ∧
    (addWarmupRule exNaming (.str "dev") (exConfigured 1 (.obj [("payload", .num 0)]))).toOption.bind
      (fun s => (resourceAt s (ruleId 1)).map fun rule =>
        (targetsOf rule).map fun target => JVal.get target "Input")
      = some [.str "\x7b\"source\":\"serverless-plugin-lambda-warmup\"\x7d"] ∧
    JVal.str "\x7b\"source\":\"serverless-plugin-lambda-warmup\"\x7d" ≠ jsonStringify (.num 0) :=
  ⟨rfl, rfl, fun h => (by decide : ¬ serialize _ = serialize _) (congrArg serialize h)⟩

/-- C8 (amended): for every configured `payload` value `p` whose numbers are safe
integers, a run past the stage gate returns, and every target of every rule it stores
has one and the same `Input`: `JSON.stringify(p)` when `p` is truthy, and the
serialization of the default payload when `p` is falsy. -/
theorem C8_payload_or_default_is_every_input (naming : Naming) (stage p : JVal)
    (service : Service) (fns : List (String × JVal)) (targets : List Target) (R : Nat)
    (hf : service.functions = .obj fns)
    (hwf : ∀ e ∈ fns, isNullish e.2 = false)
    (hgate : stageBlocked service.custom stage = false)
    (hp : JVal.get (warmupConfig service.custom) "payload" = p)
    (hsafe : safeNumbers p = true)
    (ht : targets = runTargets naming service.custom fns)
    (hR : R = ruleCount targets.length) :
    ∃ service', addWarmupRule naming stage service = .ok service' ∧
      safeNumbers (if truthy p then p else DEFAULT_PAYLOAD) = true ∧
      (truthy p = false →
        jsonStringify (if truthy p then p else DEFAULT_PAYLOAD)
          = .str "\x7b\"source\":\"serverless-plugin-lambda-warmup\"\x7d") ∧
      (∀ t ∈ targets, t.Input = jsonStringify (if truthy p then p else DEFAULT_PAYLOAD)) ∧
      ∀ i, i < R → ∃ rule, resourceAt service' (ruleId (i + 1)) = some rule ∧
        targetsOf rule = (slice targets i).map Target.toJVal ∧
        ∀ target ∈ targetsOf rule,
          JVal.get target "Input" = jsonStringify (if truthy p then p else DEFAULT_PAYLOAD) := by
  subst ht hR
  have hin : runInput service.custom
      = jsonStringify (if truthy p then p else DEFAULT_PAYLOAD) := by
    simp only [runInput, hp, JVal.or]
  have hall : ∀ t ∈ runTargets naming service.custom fns,
      t.Input = jsonStringify (if truthy p then p else DEFAULT_PAYLOAD) := by
    intro t ht
    obtain ⟨e, _, _, rfl⟩ := mem_runTargets ht
    exact hin
  refine ⟨_, addWarmupRule_eq naming stage service fns hf hwf hgate, ?_, ?_, hall, ?_⟩
  · by_cases htr : truthy p = true
    · simpa only [htr, if_true] using hsafe
    · simp only [htr, Bool.false_eq_true, if_false]
      rfl
  · intro hfalse
    simp only [hfalse, Bool.false_eq_true, if_false]
    rfl
  · intro i hi
    refine ⟨ruleResource (warmupConfig service.custom) naming.getStackName (i + 1)
      (slice (runTargets naming service.custom fns) i), ?_, rfl, ?_⟩
    · rw [resourceAt_applyWrites _ _ runWrites_notNumeral]
      exact lastWrite_rule naming service.custom fns hi _
    · intro target htarget
      have hmem : target ∈ (slice (runTargets naming service.custom fns) i).map Target.toJVal :=
        htarget
      obtain ⟨t, ht, rfl⟩ := List.mem_map.1 hmem
      exact hall t (mem_of_mem_slice ht)

theorem C8_payload_or_default_is_every_input_witness :
    (∃ service', addWarmupRule exNaming (.str "dev")
        (exConfigured 6 (.obj [("payload", .obj [("foo", .str "bar")])])) = .ok service' ∧
      ∃ rule, resourceAt service' (ruleId 2) = some rule ∧
        ∀ target ∈ targetsOf rule,
          JVal.get target "Input" = .str "\x7b\"foo\":\"bar\"\x7d") ∧
    (∃ service', addWarmupRule exNaming (.str "dev")
        (exConfigured 6 (.obj [("payload", .bool false)])) = .ok service' ∧
      ∃ rule, resourceAt service' (ruleId 1) = some rule ∧
        ∀ target ∈ targetsOf rule,
          JVal.get target "Input"
            = .str "\x7b\"source\":\"serverless-plugin-lambda-warmup\"\x7d") := by
  constructor
  · obtain ⟨s, h1, _, _, _, h2⟩ :=
      C8_payload_or_default_is_every_input exNaming (.str "dev") (.obj [("foo", .str "bar")])
        (exConfigured 6 (.obj [("payload", .obj [("foo", .str "bar")])])) (exFunctions 6)
        (runTargets exNaming (.obj [("warmup", .obj [("payload", .obj [("foo", .str "bar")])])])
          (exFunctions 6)) 2 rfl (by decide) rfl rfl rfl rfl rfl
    obtain ⟨rule, hr, _, hin⟩ := h2 1 (by decide)
    exact ⟨s, h1, rule, hr, hin⟩
  · obtain ⟨s, h1, _, _, _, h2⟩ :=
      C8_payload_or_default_is_every_input exNaming (.str "dev") (.bool false)
        (exConfigured 6 (.obj [("payload", .bool false)])) (exFunctions 6)
        (runTargets exNaming (.obj [("warmup", .obj [("payload", .bool false)])])
          (exFunctions 6)) 2 rfl (by decide) rfl rfl rfl rfl rfl
    obtain ⟨rule, hr, _, hin⟩ := h2 0 (by decide)
    exact ⟨s, h1, rule, hr, hin⟩

/-! ## C9 -/

/-- C9: when no `payload` is configured (no `custom` block, no `warmup` block, or a
`warmup` block without `payload`), a run past the stage gate returns, and every target
of every rule it stores has `Input` equal to the string
`{"source":"serverless-plugin-lambda-warmup"}`. -/
theorem C9_default_payload_is_every_input (naming : Naming) (stage : JVal) (service : Service)
    (fns : List (String × JVal)) (targets : List Target) (R : Nat)
    (hf : service.functions = .obj fns)
    (hwf : ∀ e ∈ fns, isNullish e.2 = false)
    (hgate : stageBlocked service.custom stage = false)
    (hp : JVal.get (warmupConfig service.custom) "payload" = .undefined)
    (ht : targets = runTargets naming service.custom fns)
    (hR : R = ruleCount targets.length) :
    ∃ service', addWarmupRule naming stage service = .ok service' ∧
      (∀ t ∈ targets,
        t.Input = .str "\x7b\"source\":\"serverless-plugin-lambda-warmup\"\x7d") ∧
      ∀ i, i < R → ∃ rule, resourceAt service' (ruleId (i + 1)) = some rule ∧
        targetsOf rule = (slice targets i).map Target.toJVal ∧
        ∀ target ∈ targetsOf rule,
          JVal.get target "Input"
            = .str "\x7b\"source\":\"serverless-plugin-lambda-warmup\"\x7d" := by
  subst ht hR
  have hin : runInput service.custom
      = .str "\x7b\"source\":\"serverless-plugin-lambda-warmup\"\x7d" := by
    simp only [runInput, hp]
    rfl
  have hall : ∀ t ∈ runTargets naming service.custom fns,
      t.Input = .str "\x7b\"source\":\"serverless-plugin-lambda-warmup\"\x7d" := by
    intro t ht
    obtain ⟨e, _, _, rfl⟩ := mem_runTargets ht
    exact hin
  refine ⟨_, addWarmupRule_eq naming stage service fns hf hwf hgate, hall, ?_⟩
  intro i hi
  refine ⟨ruleResource (warmupConfig service.custom) naming.getStackName (i + 1)
    (slice (runTargets naming service.custom fns) i), ?_, rfl, ?_⟩
  · rw [resourceAt_applyWrites _ _ runWrites_notNumeral]
    exact lastWrite_rule naming service.custom fns hi _
  · intro target htarget
    have hmem : target ∈ (slice (runTargets naming service.custom fns) i).map Target.toJVal :=
      htarget
    obtain ⟨t, ht, rfl⟩ := List.mem_map.1 hmem
    exact hall t (mem_of_mem_slice ht)

theorem C9_default_payload_is_every_input_witness :
    (∃ service', addWarmupRule exNaming (.str "dev") (exService 6) = .ok service' ∧
      ∃ rule, resourceAt service' (ruleId 1) = some rule ∧ (targetsOf rule).length = 5 ∧
        ∀ target ∈ targetsOf rule,
          JVal.get target "Input"
            = .str "\x7b\"source\":\"serverless-plugin-lambda-warmup\"\x7d") ∧
    (∃ service', addWarmupRule exNaming (.str "dev")
        (exConfigured 6 (.obj [("schedule", .str "rate(1 minute)")])) = .ok service' ∧
      ∃ rule, resourceAt service' (ruleId 2) = some rule ∧ (targetsOf rule).length = 1 ∧
        ∀ target ∈ targetsOf rule,
          JVal.get target "Input"
            = .str "\x7b\"source\":\"serverless-plugin-lambda-warmup\"\x7d") := by
  constructor
  · obtain ⟨s, h1, _, h2⟩ :=
      C9_default_payload_is_every_input exNaming (.str "dev") (exService 6) (exFunctions 6)
        (runTargets exNaming .undefined (exFunctions 6)) 2 rfl (by decide) rfl rfl rfl rfl
    obtain ⟨rule, hr, ht, hin⟩ := h2 0 (by decide)
    exact ⟨s, h1, rule, hr, by rw [ht]; rfl, hin⟩
  · obtain ⟨s, h1, _, h2⟩ :=
      C9_default_payload_is_every_input exNaming (.str "dev")
        (exConfigured 6 (.obj [("schedule", .str "rate(1 minute)")])) (exFunctions 6)
        (runTargets exNaming (.obj [("warmup", .obj [("schedule", .str "rate(1 minute)")])])
          (exFunctions 6)) 2 rfl (by decide) rfl rfl rfl rfl
    obtain ⟨rule, hr, ht, hin⟩ := h2 1 (by decide)
    exact ⟨s, h1, rule, hr, by rw [ht]; rfl, hin⟩

/-! ## C10 -/

/-- C10, as stated, fails: with the schedule `0` configured, or the empty string, the
rule is stored with `ScheduleExpression` `rate(5 minutes)`, not with the configured
value. -/
theorem C10_counterexample :
    (addWarmupRule exNaming (.str "dev") (exConfigured 1 (.obj [("schedule", .num 0)]))).toOption.bind
      (fun s => (resourceAt s (ruleId 1)).map scheduleOf) = some (.str "rate(5 minutes)") ∧
    (addWarmupRule exNaming (.str "dev") (exConfigured 1 (.obj [("schedule", .str "")]))).toOption.bind
      (fun s => (resourceAt s (ruleId 1)).map scheduleOf) = some (.str "rate(5 minutes)") ∧
    JVal.str "rate(5 minutes)" ≠ .num 0 ∧ JVal.str "rate(5 minutes)" ≠ .str "" :=
  ⟨rfl, rfl, fun h => JVal.noConfusion h,
    fun h => (by decide : ¬ serialize _ = serialize _) (congrArg serialize h)⟩

/-- C10 (amended): a run past the stage gate over at least one eligible function
returns, and every rule it stores has the same `ScheduleExpression`: the configured
`schedule` value, uninterpreted, when that value is truthy, and `rate(5 minutes)` when
`schedule` is absent or falsy. -/
theorem C10_one_schedule_for_all_rules (naming : Naming) (stage schedule : JVal)
    (service : Service) (fns : List (String × JVal)) (R : Nat)
    (hf : service.functions = .obj fns)
    (hwf : ∀ e ∈ fns, isNullish e.2 = false)
    (hgate : stageBlocked service.custom stage = false)
    (hs : JVal.get (warmupConfig service.custom) "schedule" = schedule)
    (hN : 1 ≤ (fns.filter fun e => isEligible e.2).length)
    (hR : R = ruleCount (fns.filter fun e => isEligible e.2).length) :
    ∃ service', addWarmupRule naming stage service = .ok service' ∧
      1 ≤ R ∧
      ∀ i, i < R → ∃ rule, resourceAt service' (ruleId (i + 1)) = some rule ∧
        scheduleOf rule = (if truthy schedule then schedule else .str "rate(5 minutes)") := by
  subst hR
  refine ⟨_, addWarmupRule_eq naming stage service fns hf hwf hgate, ?_, ?_⟩
  · unfold ruleCount
    simp only [TARGETS_PER_RULE]
    omega
  · intro i hi
    refine ⟨ruleResource (warmupConfig service.custom) naming.getStackName (i + 1)
      (slice (runTargets naming service.custom fns) i), ?_, ?_⟩
    · rw [resourceAt_applyWrites _ _ runWrites_notNumeral]
      exact lastWrite_rule naming service.custom fns (by rw [runTargets_length]; exact hi) _
    · show JVal.or (JVal.get (warmupConfig service.custom) "schedule") (.str DEFAULT_SCHEDULE) = _
      rw [hs]
      rfl

theorem C10_one_schedule_for_all_rules_witness :
    ∃ service', addWarmupRule exNaming (.str "dev")
        (exConfigured 6 (.obj [("schedule", .str "rate(1 minute)")])) = .ok service' ∧
      (∃ rule, resourceAt service' (ruleId 1) = some rule ∧
        scheduleOf rule = .str "rate(1 minute)") ∧
      (∃ rule, resourceAt service' (ruleId 2) = some rule ∧
        scheduleOf rule = .str "rate(1 minute)") := by
  obtain ⟨s, h1, _, h2⟩ :=
    C10_one_schedule_for_all_rules exNaming (.str "dev") (.str "rate(1 minute)")
      (exConfigured 6 (.obj [("schedule", .str "rate(1 minute)")])) (exFunctions 6) 2
      rfl (by decide) rfl rfl (by decide) (by decide)
  exact ⟨s, h1, h2 0 (by decide), h2 1 (by decide)⟩

/-! ## C11 -/

/-- C11: a run past the stage gate over at least one eligible function returns, and
for every 1-based rule index `i + 1` up to `ceil(N / 5)` the rule is stored under the
id `LambdaWarmupEventsRule<i + 1>` with `Type` `AWS::Events::Rule`, `State` `ENABLED`,
`Name` `<stackName>-lambdaWarmup-timer-<i + 1>` for the stack name of the naming
service, and the fixed `Description`. -/
theorem C11_rule_id_and_fixed_fields (naming : Naming) (stage : JVal) (service : Service)
    (fns : List (String × JVal)) (R : Nat)
    (hf : service.functions = .obj fns)
    (hwf : ∀ e ∈ fns, isNullish e.2 = false)
    (hgate : stageBlocked service.custom stage = false)
    (hN : 1 ≤ (fns.filter fun e => isEligible e.2).length)
    (hR : R = ruleCount (fns.filter fun e => isEligible e.2).length) :
    ∃ service', addWarmupRule naming stage service = .ok service' ∧
      1 ≤ R ∧
      ∀ i, i < R → ∃ rule,
        resourceAt service' ("LambdaWarmupEventsRule" ++ toString (i + 1)) = some rule ∧
        JVal.get rule "Type" = .str "AWS::Events::Rule" ∧
        JVal.get (JVal.get rule "Properties") "State" = .str "ENABLED" ∧
        JVal.get (JVal.get rule "Properties") "Name"
          = .str (naming.getStackName ++ "-lambdaWarmup-timer-" ++ toString (i + 1)) ∧
        JVal.get (JVal.get rule "Properties") "Description"
          = .str "Lambda warmup timer created by serverless-plugin-lambda-warmup" := by
  subst hR
  refine ⟨_, addWarmupRule_eq naming stage service fns hf hwf hgate, ?_, ?_⟩
  · unfold ruleCount
    simp only [TARGETS_PER_RULE]
    omega
  · intro i hi
    refine ⟨ruleResource (warmupConfig service.custom) naming.getStackName (i + 1)
      (slice (runTargets naming service.custom fns) i), ?_, rfl, rfl, rfl, rfl⟩
    rw [resourceAt_applyWrites _ _ runWrites_notNumeral]
    exact lastWrite_rule naming service.custom fns (by rw [runTargets_length]; exact hi) _

theorem C11_rule_id_and_fixed_fields_witness :
    ∃ service', addWarmupRule exNaming (.str "dev") (exService 6) = .ok service' ∧
      ∃ rule, resourceAt service' "LambdaWarmupEventsRule2" = some rule ∧
        JVal.get rule "Type" = .str "AWS::Events::Rule" ∧
        JVal.get (JVal.get rule "Properties") "State" = .str "ENABLED" ∧
        JVal.get (JVal.get rule "Properties") "Name" = .str "foo-dev-lambdaWarmup-timer-2" ∧
        JVal.get (JVal.get rule "Properties") "Description"
          = .str "Lambda warmup timer created by serverless-plugin-lambda-warmup" := by
  obtain ⟨s, h1, _, h2⟩ :=
    C11_rule_id_and_fixed_fields exNaming (.str "dev") (exService 6) (exFunctions 6) 2
      rfl (by decide) rfl (by decide) (by decide)
  exact ⟨s, h1, h2 1 (by decide)⟩

/-! ## C12 -/

/-- C12: on a functions object whose definitions are not nullish, the reducer of
`addWarmupRule` returns the list of the function names that are not opted out, in the
iteration order of the object, each mapped to the record with `Id` `L + 'Schedule'`,
`Arn` `{'Fn::GetAtt': [L, 'Arn']}` and `Input` the payload string of the run, `L` being
the logical id the naming service gives the name: one target per eligible function
and no others. A run past the stage gate stores these targets, in this order, as the
`Targets` of its rules. -/
theorem C12_targets_are_eligible_functions_in_order (naming : Naming) (stage : JVal)
    (service : Service) (fns : List (String × JVal)) (targets : List Target)
    (hf : service.functions = .obj fns)
    (hwf : ∀ e ∈ fns, isNullish e.2 = false)
    (hgate : stageBlocked service.custom stage = false)
    (ht : targets = ((fns.filter fun e => isEligible e.2).map fun e =>
      ({ Id := naming.getLambdaLogicalId e.1 ++ "Schedule",
         Arn := .obj [("Fn::GetAtt", .arr [.str (naming.getLambdaLogicalId e.1), .str "Arn"] [])],
         Input := jsonStringify
           (JVal.or (JVal.get (warmupConfig service.custom) "payload") DEFAULT_PAYLOAD) }
        : Target))) :
    reduceTargets naming
        (jsonStringify (JVal.or (JVal.get (warmupConfig service.custom) "payload") DEFAULT_PAYLOAD))
        (entries service.functions) [] = .ok targets ∧
    targets.length = (fns.filter fun e => isEligible e.2).length ∧
    ∃ service', addWarmupRule naming stage service = .ok service' ∧
      (∀ i, i < ruleCount targets.length → ∃ rule,
        resourceAt service' (ruleId (i + 1)) = some rule ∧
        targetsOf rule = (slice targets i).map Target.toJVal) ∧
      ((List.range (ruleCount targets.length)).map (slice targets)).flatten = targets := by
  have htl : targets = runTargets naming service.custom fns := ht
  refine ⟨?_, ?_, _, addWarmupRule_eq naming stage service fns hf hwf hgate, ?_, ?_⟩
  · rw [hf, htl]
    exact reduceTargets_eq naming _ fns [] hwf
  · rw [ht, List.length_map]
  · intro i hi
    rw [htl] at hi ⊢
    refine ⟨ruleResource (warmupConfig service.custom) naming.getStackName (i + 1)
      (slice (runTargets naming service.custom fns) i), ?_, rfl⟩
    rw [resourceAt_applyWrites _ _ runWrites_notNumeral]
    exact lastWrite_rule naming service.custom fns hi _
  · exact join_slices _ _ (ruleCount_bounds _).1

theorem C12_targets_are_eligible_functions_in_order_witness :
    reduceTargets exNaming
        (.str "\x7b\"source\":\"serverless-plugin-lambda-warmup\"\x7d")
        [("function1", .obj []), ("function2", .obj [("warmup", .bool false)]),
          ("function3", .obj [("warmup", .bool true)])] []
      = .ok [
          { Id := "Function1LambdaFunctionSchedule",
            Arn := .obj [("Fn::GetAtt", .arr [.str "Function1LambdaFunction", .str "Arn"] [])],
            Input := .str "\x7b\"source\":\"serverless-plugin-lambda-warmup\"\x7d" },
          { Id := "Function3LambdaFunctionSchedule",
            Arn := .obj [("Fn::GetAtt", .arr [.str "Function3LambdaFunction", .str "Arn"] [])],
            Input := .str "\x7b\"source\":\"serverless-plugin-lambda-warmup\"\x7d" }] :=
  (C12_targets_are_eligible_functions_in_order exNaming (.str "dev")
    { functions := .obj [("function1", .obj []), ("function2", .obj [("warmup", .bool false)]),
        ("function3", .obj [("warmup", .bool true)])],
      custom := .undefined, resources := .undefined }
    [("function1", .obj []), ("function2", .obj [("warmup", .bool false)]),
      ("function3", .obj [("warmup", .bool true)])] _ rfl (by decide) rfl rfl).1

/-! ## The run as a plan of writes -/

theorem addWarmupRule_plan (naming : Naming) (stage : JVal) (service : Service) :
    addWarmupRule naming stage service
      = (plan naming stage service.functions service.custom).map fun ws =>
          { service with resources := applyWrites ws service.resources } := by
  unfold addWarmupRule plan
  by_cases h1 : typeofObject service.functions = true
  · by_cases h2 : stageBlocked service.custom stage = true
    · have h2' := h2
      unfold stageBlocked at h2'
      simp only [h1, h2, h2', Bool.not_true, Bool.false_eq_true, if_false, if_true]
      rfl
    · have h2' := h2
      unfold stageBlocked at h2'
      simp only [h1, h2, h2', Bool.not_true, Bool.false_eq_true, if_false]
      by_cases h3 : isNullish service.functions = true
      · simp only [h3, if_true]
        rfl
      · simp only [h3, Bool.false_eq_true, if_false]
        show (match reduceTargets naming (runInput service.custom) (entries service.functions) []
          with
          | .error e => Except.error e
          | .ok targets =>
            if targets.length = 0 then Except.ok service
            else Except.ok (forEachIdx (addChunk (warmupConfig service.custom) naming.getStackName)
              (chunk targets TARGETS_PER_RULE) 0 service)) = _
        cases reduceTargets naming (runInput service.custom) (entries service.functions) [] with
        | error e => rfl
        | ok ts =>
          simp only []
          by_cases h4 : ts.length = 0
          · have : ts = [] := List.eq_nil_of_length_eq_zero h4
            subst this
            rfl
          · simp only [h4, if_false, forEachIdx_addChunk]
            rfl
  · simp only [h1, Bool.not_false, if_true]
    rfl

theorem plan_notNumeral (naming : Naming) (stage functions custom : JVal)
    (ws : List (String × JVal)) (h : plan naming stage functions custom = .ok ws) :
    ∀ w ∈ ws, NotNumeral w.1 := by
  unfold plan at h
  by_cases h1 : typeofObject functions = true
  · by_cases h2 : stageBlocked custom stage = true
    · simp only [h1, h2, Bool.not_true, Bool.false_eq_true, if_false, if_true,
        Except.ok.injEq] at h
      subst h
      simp
    · simp only [h1, h2, Bool.not_true, Bool.false_eq_true, if_false] at h
      by_cases h3 : isNullish functions = true
      · simp [h3] at h
      · simp only [h3, Bool.false_eq_true, if_false] at h
        cases hts : reduceTargets naming (runInput custom) (entries functions) [] with
        | error e => rw [hts] at h; simp at h
        | ok ts =>
          rw [hts] at h
          simp only [Except.ok.injEq] at h
          subst h
          intro w hw
          obtain ⟨j, c, _, hw⟩ := (mem_writesFrom _ 0).1 hw
          rcases mem_chunkWrites.1 hw with rfl | ⟨t, _, rfl⟩
          · exact ruleId_notNumeral _
          · exact permissionId_notNumeral _ _
  · simp only [h1, Bool.not_false, if_true, Except.ok.injEq] at h
    subst h
    simp

/-! ## C13 -/

theorem writesFrom_congr {c1 c2 : JVal} (h : JVal.get c1 "schedule" = JVal.get c2 "schedule")
    (stackName : String) :
    ∀ (cs : List (List Target)) (i : Nat),
      writesFrom c1 stackName cs i = writesFrom c2 stackName cs i := by
  intro cs
  induction cs with
  | nil => intro i; rfl
  | cons c cs ih =>
    intro i
    simp only [writesFrom, chunkWrites, ruleResource, h, ih]

theorem plan_congr (naming : Naming) (stage functions c1 c2 : JVal)
    (hgate : stageBlocked c1 stage = stageBlocked c2 stage)
    (hpayload : JVal.get (warmupConfig c1) "payload" = JVal.get (warmupConfig c2) "payload")
    (hschedule : JVal.get (warmupConfig c1) "schedule" = JVal.get (warmupConfig c2) "schedule") :
    plan naming stage functions c1 = plan naming stage functions c2 := by
  have hin : runInput c1 = runInput c2 := by simp only [runInput, hpayload]
  unfold plan
  simp only [hgate, hin, writesFrom_congr hschedule]

theorem stageBlocked_of_member {custom stage : JVal}
    (h : ∃ x ∈ concat (JVal.get (warmupConfig custom) "stages"), strictEq x stage = true) :
    stageBlocked custom stage = false := by
  obtain ⟨x, hx, hxs⟩ := h
  have hany : (concat (JVal.get (warmupConfig custom) "stages")).any
      (fun y => strictEq y stage) = true :=
    List.any_eq_true.2 ⟨x, hx, hxs⟩
  simp [stageBlocked, notIndexOf, hany]

theorem strictEq_str (a b : String) : strictEq (.str a) (.str b) = true ↔ a = b := by
  simp [strictEq]

/-- C13: when the configured `stages` is a single stage name equal to the current stage,
or a list that contains the current stage, `addWarmupRule` produces exactly the resource
tree (or error) it produces for the same functions, resource tree, `payload` and
`schedule` with `stages` not configured at all. A single value is handled as the
one-element list of that value, and two stage names match exactly when they are the
same string. -/
theorem C13_listed_stage_is_as_no_stages (naming : Naming)
    (stage functions resources custom custom' : JVal)
    (hmember : ∃ x ∈ concat (JVal.get (warmupConfig custom) "stages"), strictEq x stage = true)
    (hnone : JVal.get (warmupConfig custom') "stages" = .undefined)
    (hpayload : JVal.get (warmupConfig custom) "payload"
      = JVal.get (warmupConfig custom') "payload")
    (hschedule : JVal.get (warmupConfig custom) "schedule"
      = JVal.get (warmupConfig custom') "schedule") :
    (addWarmupRule naming stage
        { functions := functions, custom := custom, resources := resources }).map
        Service.resources
      = (addWarmupRule naming stage
          { functions := functions, custom := custom', resources := resources }).map
          Service.resources ∧
    (∀ s : String, concat (.str s) = concat (.arr [.str s] [])) ∧
    (∀ a b : String, strictEq (.str a) (.str b) = true ↔ a = b) := by
  refine ⟨?_, fun _ => rfl, strictEq_str⟩
  have hb : stageBlocked custom' stage = false := by
    simp [stageBlocked, hnone, truthy]
  have hplan := plan_congr naming stage functions custom custom'
    ((stageBlocked_of_member hmember).trans hb.symm) hpayload hschedule
  rw [addWarmupRule_plan, addWarmupRule_plan]
  simp only [hplan]
  cases plan naming stage functions custom' <;> rfl

theorem C13_listed_stage_is_as_no_stages_witness :
    (addWarmupRule exNaming (.str "dev")
        { functions := .obj (exFunctions 6),
          custom := .obj [("warmup", .obj [("stages", .str "dev")])],
          resources := .undefined }).map Service.resources
      = (addWarmupRule exNaming (.str "dev") (exService 6)).map Service.resources ∧
    (addWarmupRule exNaming (.str "dev")
        { functions := .obj (exFunctions 6),
          custom := .obj [("warmup", .obj [("stages", .arr [.str "prod", .str "dev"] [])])],
          resources := .undefined }).map Service.resources
      = (addWarmupRule exNaming (.str "dev") (exService 6)).map Service.resources :=
  ⟨(C13_listed_stage_is_as_no_stages exNaming (.str "dev") (.obj (exFunctions 6)) .undefined
      (.obj [("warmup", .obj [("stages", .str "dev")])]) .undefined
      ⟨.str "dev", List.mem_singleton.2 rfl, rfl⟩ rfl rfl rfl).1,
   (C13_listed_stage_is_as_no_stages exNaming (.str "dev") (.obj (exFunctions 6)) .undefined
      (.obj [("warmup", .obj [("stages", .arr [.str "prod", .str "dev"] [])])]) .undefined
      ⟨.str "dev", List.mem_cons_of_mem _ (List.mem_singleton.2 rfl), rfl⟩ rfl rfl rfl).1⟩

/-! ## C14 -/

/-- C14, as stated, fails: with `functions` equal to `null`, which passes the test
`typeof service.functions !== 'object'`, and with a function definition equal to
`null`, the call raises a `TypeError`. -/
theorem C14_counterexample :
    addWarmupRule exNaming (.str "dev")
        { functions := .null, custom := .undefined, resources := .undefined }
      = .error .TypeError ∧
    addWarmupRule exNaming (.str "dev")
        { functions := .obj [("function1", .null)], custom := .undefined,
          resources := .undefined }
      = .error .TypeError :=
  ⟨rfl, rfl⟩

theorem reduceTargets_raises (naming : Naming) (input : JVal) :
    ∀ (fns : List (String × JVal)) (acc : List Target),
      (∃ e ∈ fns, isNullish e.2 = true) →
      reduceTargets naming input fns acc = .error .TypeError := by
  intro fns
  induction fns with
  | nil => intro acc h; simp at h
  | cons e rest ih =>
    intro acc h
    obtain ⟨name, d⟩ := e
    by_cases hn : isNullish d = true
    · simp [reduceTargets, hn]
    · have hrest : ∃ e ∈ rest, isNullish e.2 = true := by
        obtain ⟨x, hx, hxn⟩ := h
        rcases List.mem_cons.1 hx with rfl | hx
        · exact absurd hxn hn
        · exact ⟨x, hx, hxn⟩
      by_cases he : isEligible d = true
      · simp only [reduceTargets, hn, he, if_true, Bool.false_eq_true, if_false]
        exact ih _ hrest
      · simp only [reduceTargets, hn, he, Bool.false_eq_true, if_false]
        exact ih _ hrest

/-- A run that the stage gate lets through on an object or array with a nullish
definition raises a `TypeError`. -/
theorem addWarmupRule_raises (naming : Naming) (stage : JVal) (service : Service)
    (hobj : typeofObject service.functions = true)
    (hgate : stageBlocked service.custom stage = false)
    (hbad : ∃ e ∈ entries service.functions, isNullish e.2 = true) :
    addWarmupRule naming stage service = .error .TypeError := by
  unfold addWarmupRule
  unfold stageBlocked at hgate
  simp only [hobj, hgate, Bool.not_true, Bool.false_eq_true, if_false]
  by_cases h3 : isNullish service.functions = true
  · simp only [h3, if_true]
  · simp only [h3, Bool.false_eq_true, if_false]
    rw [reduceTargets_raises naming _ _ [] hbad]

/-- A run that the stage gate holds back returns the service as it is. -/
theorem addWarmupRule_blocked (naming : Naming) (stage : JVal) (service : Service)
    (hgate : stageBlocked service.custom stage = true) :
    addWarmupRule naming stage service = .ok service := by
  unfold addWarmupRule
  unfold stageBlocked at hgate
  by_cases h1 : typeofObject service.functions = true
  · simp only [h1, hgate, Bool.not_true, Bool.false_eq_true, if_false, if_true]
  · simp only [h1, Bool.not_false, if_true]

/-- C14 (amended): for every configuration, stage and resource tree, `addWarmupRule`
completes normally when `functions` is absent or not an object, when the stage gate
holds the run back, and when `functions` is an object or array none of whose
definitions is `null` or `undefined`, whatever their `warmup` value: it returns the
service with `functions` and `custom` as they were and, for logical ids that are one
key of the path, with the resource tree as it was or with the writes of the run applied
to it. And on an object or array that the stage gate lets through it raises a
`TypeError` if and only if one of the definitions is `null` or `undefined`. -/
theorem C14_raises_exactly_on_nullish_definitions (naming : Naming) (stage : JVal)
    (service : Service) :
    ((typeofObject service.functions = false ∨ stageBlocked service.custom stage = true ∨
        (service.functions ≠ .null ∧ ∀ e ∈ entries service.functions, isNullish e.2 = false)) →
      ∃ service', addWarmupRule naming stage service = .ok service' ∧
        service'.functions = service.functions ∧ service'.custom = service.custom ∧
        ((∀ e ∈ entries service.functions, isEligible e.2 = true →
            pathSafe (naming.getLambdaLogicalId e.1) = true) →
          service' = service ∨
          service' = { service with
            resources := applyWrites (runWrites naming service.custom (entries service.functions))
              service.resources })) ∧
    (typeofObject service.functions = true → service.functions ≠ .null →
      stageBlocked service.custom stage = false →
      (addWarmupRule naming stage service = .error .TypeError ↔
        ∃ e ∈ entries service.functions, isNullish e.2 = true)) := by
  constructor
  · intro h
    have hret : ∃ service', addWarmupRule naming stage service = .ok service' := by
      rcases h with h | h | ⟨hnull, hwf⟩
      · refine ⟨service, ?_⟩
        unfold addWarmupRule
        simp only [h, Bool.not_false, if_true]
      · exact ⟨service, addWarmupRule_blocked naming stage service h⟩
      · exact addWarmupRule_returns naming stage service hnull hwf
    obtain ⟨s, hs⟩ := hret
    have hor := addWarmupRule_of_ok naming stage service s hs
    refine ⟨s, hs, ?_, ?_, fun _ => hor⟩
    · rcases hor with rfl | rfl <;> rfl
    · rcases hor with rfl | rfl <;> rfl
  · intro hobj hnull hgate
    constructor
    · intro herr
      by_contra hno
      have hwf : ∀ e ∈ entries service.functions, isNullish e.2 = false := by
        intro e he
        by_contra hne
        exact hno ⟨e, he, by simpa using hne⟩
      obtain ⟨s, hs⟩ := addWarmupRule_returns naming stage service hnull hwf
      rw [hs] at herr
      cases herr
    · exact addWarmupRule_raises naming stage service hobj hgate

theorem C14_raises_exactly_on_nullish_definitions_witness :
    (∃ service', addWarmupRule exNaming (.str "dev")
        { functions := .undefined, custom := .null, resources := .undefined } = .ok service') ∧
    (∃ service', addWarmupRule exNaming (.str "dev")
        { functions := .null, custom := .obj [("warmup", .obj [("stages", .str "prod")])],
          resources := .undefined } = .ok service') ∧
    (∃ service', addWarmupRule exNaming (.str "dev")
        { functions := .obj [("function1", .obj [("warmup", .null)]),
            ("function2", .str "handler"), ("function3", .obj [("warmup", .num 0)])],
          custom := .obj [("warmup", .bool true)], resources := .null } = .ok service') ∧
    addWarmupRule exNaming (.str "dev")
        { functions := .obj [("function1", .obj []), ("function2", .undefined)],
          custom := .undefined, resources := .undefined } = .error .TypeError := by
  refine ⟨?_, ?_, ?_, ?_⟩
  · obtain ⟨s, hs, _⟩ := (C14_raises_exactly_on_nullish_definitions exNaming (.str "dev")
      { functions := .undefined, custom := .null, resources := .undefined }).1 (Or.inl rfl)
    exact ⟨s, hs⟩
  · obtain ⟨s, hs, _⟩ := (C14_raises_exactly_on_nullish_definitions exNaming (.str "dev")
      { functions := .null, custom := .obj [("warmup", .obj [("stages", .str "prod")])],
        resources := .undefined }).1 (Or.inr (Or.inl rfl))
    exact ⟨s, hs⟩
  · obtain ⟨s, hs, _⟩ := (C14_raises_exactly_on_nullish_definitions exNaming (.str "dev")
      { functions := .obj [("function1", .obj [("warmup", .null)]),
          ("function2", .str "handler"), ("function3", .obj [("warmup", .num 0)])],
        custom := .obj [("warmup", .bool true)], resources := .null }).1
      (Or.inr (Or.inr ⟨fun h => JVal.noConfusion h, by decide⟩))
    exact ⟨s, hs⟩
  · exact ((C14_raises_exactly_on_nullish_definitions exNaming (.str "dev")
      { functions := .obj [("function1", .obj []), ("function2", .undefined)],
        custom := .undefined, resources := .undefined }).2 rfl (fun h => JVal.noConfusion h)
      rfl).2 ⟨("function2", .undefined), List.mem_cons_of_mem _ (List.mem_singleton.2 rfl), rfl⟩

/-! ## Writing the same sequence twice -/

theorem upsert_upsert_same (l : List (String × JVal)) (k : String) (v v' : JVal) :
    upsert (upsert l k v) k v' = upsert l k v' := by
  induction l with
  | nil => simp [upsert]
  | cons p rest ih =>
    obtain ⟨a, b⟩ := p
    by_cases ha : a = k
    · simp [upsert, ha]
    · simp [upsert, ha, ih]

theorem mem_keys_upsert {l : List (String × JVal)} {k : String} (k' : String) (v' : JVal)
    (h : k ∈ l.map Prod.fst) : k ∈ (upsert l k' v').map Prod.fst := by
  induction l with
  | nil => simp at h
  | cons p rest ih =>
    obtain ⟨a, b⟩ := p
    by_cases ha : a = k'
    · subst ha
      simpa [upsert] using h
    · simp only [upsert, ha, if_false, List.map_cons, List.mem_cons] at h ⊢
      rcases h with h | h
      · exact Or.inl h
      · exact Or.inr (ih h)

theorem upsert_comm {l : List (String × JVal)} {k k' : String} (hne : k ≠ k')
    (hk : k ∈ l.map Prod.fst) (v v' : JVal) :
    upsert (upsert l k v) k' v' = upsert (upsert l k' v') k v := by
  induction l with
  | nil => simp at hk
  | cons p rest ih =>
    obtain ⟨a, b⟩ := p
    by_cases ha : a = k
    · subst ha
      simp [upsert, hne]
    · by_cases ha' : a = k'
      · subst ha'
        simp [upsert, ha]
      · have hk' : k ∈ rest.map Prod.fst := by
          simp only [List.map_cons, List.mem_cons] at hk
          rcases hk with hk | hk
          · exact absurd hk.symm ha
          · exact hk
        simp [upsert, ha, ha', ih hk']

theorem upsert_of_lookup {l : List (String × JVal)} {k : String} {v : JVal}
    (h : l.lookup k = some v) : upsert l k v = l := by
  induction l with
  | nil => simp at h
  | cons p rest ih =>
    obtain ⟨a, b⟩ := p
    by_cases ha : a = k
    · subst ha
      rw [lookup_cons_of_eq] at h
      simp only [Option.some.injEq] at h
      simp [upsert, h]
    · have hk : k ≠ a := fun e => ha e.symm
      rw [lookup_cons_of_ne hk] at h
      simp [upsert, ha, ih h]

theorem mem_keys_applyList (ws : List (String × JVal)) :
    ∀ (l : List (String × JVal)) {k : String}, k ∈ l.map Prod.fst →
      k ∈ (applyList ws l).map Prod.fst := by
  induction ws with
  | nil => intro l k h; exact h
  | cons w ws ih =>
    intro l k h
    exact ih _ (mem_keys_upsert w.1 w.2 h)

theorem lookup_applyList_of_not_mem (ws : List (String × JVal)) :
    ∀ (l : List (String × JVal)) {k : String}, (∀ w ∈ ws, w.1 ≠ k) →
      (applyList ws l).lookup k = l.lookup k := by
  induction ws with
  | nil => intro l k _; rfl
  | cons w ws ih =>
    intro l k h
    have hw : k ≠ w.1 := fun e => h w (List.mem_cons_self _ _) e.symm
    have := ih (upsert l w.1 w.2) (fun x hx => h x (List.mem_cons_of_mem _ hx))
    simp only [applyList, List.foldl_cons] at this ⊢
    rw [this, lookup_upsert]
    simp [hw]

theorem applyList_upsert_of_mem (ws : List (String × JVal)) :
    ∀ (l : List (String × JVal)) {k : String} (v : JVal), (∃ w ∈ ws, w.1 = k) →
      k ∈ l.map Prod.fst → applyList ws (upsert l k v) = applyList ws l := by
  induction ws with
  | nil => intro l k v h; simp at h
  | cons w ws ih =>
    intro l k v hex hk
    obtain ⟨k1, v1⟩ := w
    by_cases h1 : k1 = k
    · subst h1
      simp only [applyList, List.foldl_cons, upsert_upsert_same]
    · have hex' : ∃ w ∈ ws, w.1 = k := by
        obtain ⟨x, hx, hxk⟩ := hex
        rcases List.mem_cons.1 hx with rfl | hx
        · exact absurd hxk h1
        · exact ⟨x, hx, hxk⟩
      have hne : k ≠ k1 := fun e => h1 e.symm
      have := ih (upsert l k1 v1) v hex' (mem_keys_upsert k1 v1 hk)
      simp only [applyList, List.foldl_cons] at this ⊢
      rw [upsert_comm hne hk, this]

theorem applyList_idem (ws : List (String × JVal)) :
    ∀ l : List (String × JVal), applyList ws (applyList ws l) = applyList ws l := by
  induction ws with
  | nil => intro l; rfl
  | cons w ws ih =>
    intro l
    obtain ⟨k, v⟩ := w
    have hstep : ∀ x, applyList ((k, v) :: ws) x = applyList ws (upsert x k v) := fun _ => rfl
    rw [hstep l, hstep (applyList ws (upsert l k v))]
    have hkey : k ∈ (applyList ws (upsert l k v)).map Prod.fst := by
      apply mem_keys_applyList
      have : (upsert l k v).lookup k = some v := by rw [lookup_upsert]; simp
      have hm := List.lookup_eq_some_iff.1 this
      obtain ⟨l1, l2, hl, _⟩ := hm
      rw [hl]
      simp
    by_cases hex : ∃ w ∈ ws, w.1 = k
    · rw [applyList_upsert_of_mem ws _ v hex hkey]
      exact ih _
    · have hnone : ∀ w ∈ ws, w.1 ≠ k := fun w hw e => hex ⟨w, hw, e⟩
      have hl : (applyList ws (upsert l k v)).lookup k = some v := by
        rw [lookup_applyList_of_not_mem ws _ hnone, lookup_upsert]
        simp
      rw [upsert_of_lookup hl]
      exact ih _

theorem assignAll_obj (ws : List (String × JVal)) :
    ∀ ps, assignAll ws (.obj ps) = .obj (applyList ws ps) := by
  induction ws with
  | nil => intro ps; rfl
  | cons w ws ih => intro ps; exact ih _

theorem assignAll_arr (ws : List (String × JVal)) (xs : List JVal) :
    ∀ ps, assignAll ws (.arr xs ps) = .arr xs (applyList ws ps) := by
  induction ws with
  | nil => intro ps; rfl
  | cons w ws ih => intro ps; exact ih _

theorem assignAll_of_not_isObject (ws : List (String × JVal)) {o : JVal}
    (h : isObject o = false) : assignAll ws o = o := by
  induction ws with
  | nil => rfl
  | cons w ws ih =>
    have : assign o w.1 w.2 = o := by cases o <;> simp_all [isObject, assign]
    simp only [assignAll, List.foldl_cons, this]
    exact ih

theorem assignAll_idem (ws : List (String × JVal)) (o : JVal) :
    assignAll ws (assignAll ws o) = assignAll ws o := by
  by_cases h : isObject o = true
  · cases o with
    | obj ps => rw [assignAll_obj, assignAll_obj, applyList_idem]
    | arr xs ps => rw [assignAll_arr, assignAll_arr, applyList_idem]
    | _ => simp [isObject] at h
  · have h' : isObject o = false := by simpa using h
    rw [assignAll_of_not_isObject ws h', assignAll_of_not_isObject ws h']

theorem isObject_assignAll (ws : List (String × JVal)) (o : JVal) :
    isObject (assignAll ws o) = isObject o := by
  by_cases h : isObject o = true
  · cases o with
    | obj ps => rw [assignAll_obj]; rfl
    | arr xs ps => rw [assignAll_arr]; rfl
    | _ => simp [isObject] at h
  · have h' : isObject o = false := by simpa using h
    rw [assignAll_of_not_isObject ws h']

theorem assign_assign_same (o : JVal) (k : String) (x y : JVal) :
    assign (assign o k x) k y = assign o k y := by
  cases o <;> simp [assign, upsert_upsert_same]

theorem assign_of_own? {o : JVal} {k : String} (hk : NotNumeral k) {x : JVal}
    (h : own? o k = some x) : assign o k x = o := by
  cases o with
  | obj ps =>
    simp only [own?, entries] at h
    simp [assign, upsert_of_lookup h]
  | arr xs ps =>
    simp only [own?, entries, List.lookup_append, lookup_indexed hk, Option.none_or] at h
    simp [assign, upsert_of_lookup h]
  | _ => rfl

theorem own?_of_isObject_get {r : JVal} {k : String} (h : isObject (JVal.get r k) = true) :
    own? r k = some (JVal.get r k) := by
  unfold JVal.get at h ⊢
  cases ho : own? r k with
  | none => rw [ho] at h; simp [isObject] at h
  | some x => rfl

/-- On a tree whose `Resources` is an object, a sequence of `set` calls is a sequence
of assignments to that object. -/
theorem applyWrites_of_normal (ws : List (String × JVal)) :
    ∀ r : JVal, isObject r = true → isObject (JVal.get r "Resources") = true →
      applyWrites ws r = assign r "Resources" (assignAll ws (JVal.get r "Resources")) := by
  induction ws with
  | nil =>
    intro r _ hg
    exact (assign_of_own? notNumeral_Resources (own?_of_isObject_get hg)).symm
  | cons w ws ih =>
    intro r hr hg
    have hstep : applyWrites (w :: ws) r = applyWrites ws (setRes r w.1 w.2) := rfl
    rw [hstep, setRes_of_isObject hr hg]
    have hr1 : isObject (assign r "Resources" (assign (JVal.get r "Resources") w.1 w.2)) = true := by
      rw [isObject_assign]; exact hr
    have hg1 : JVal.get (assign r "Resources" (assign (JVal.get r "Resources") w.1 w.2))
        "Resources" = assign (JVal.get r "Resources") w.1 w.2 :=
      get_assign_self hr notNumeral_Resources _
    rw [ih _ hr1 (by rw [hg1, isObject_assign]; exact hg), hg1, assign_assign_same]
    rfl

theorem setRes_normal (r : JVal) (k : String) (v : JVal) :
    isObject (setRes r k v) = true ∧
    ∃ inner, JVal.get (setRes r k v) "Resources" = assign inner k v ∧ isObject inner = true := by
  by_cases ho : isObject r = true
  · by_cases hg : isObject (JVal.get r "Resources") = true
    · rw [setRes_of_isObject ho hg]
      exact ⟨by rw [isObject_assign]; exact ho, _,
        get_assign_self ho notNumeral_Resources _, hg⟩
    · have hg' : isObject (JVal.get r "Resources") = false := by simpa using hg
      rw [setRes_of_isObject_inner ho hg']
      exact ⟨by rw [isObject_assign]; exact ho, .obj [],
        get_assign_self ho notNumeral_Resources _, rfl⟩
  · have ho' : isObject r = false := by simpa using ho
    rw [setRes_of_not_isObject ho']
    exact ⟨rfl, .obj [], rfl, rfl⟩

/-- Applying the same sequence of `set` calls a second time changes nothing. -/
theorem applyWrites_idem (ws : List (String × JVal)) (r : JVal) :
    applyWrites ws (applyWrites ws r) = applyWrites ws r := by
  cases ws with
  | nil => rfl
  | cons w ws =>
    obtain ⟨hr1, inner, hg1, hinner⟩ := setRes_normal r w.1 w.2
    have hg1o : isObject (JVal.get (setRes r w.1 w.2) "Resources") = true := by
      rw [hg1, isObject_assign]; exact hinner
    have hfirst : applyWrites (w :: ws) r
        = assign (setRes r w.1 w.2) "Resources" (assignAll (w :: ws) inner) := by
      have hstep : applyWrites (w :: ws) r = applyWrites ws (setRes r w.1 w.2) := rfl
      rw [hstep, applyWrites_of_normal ws _ hr1 hg1o, hg1]
      rfl
    have hs : isObject (applyWrites (w :: ws) r) = true := by
      rw [hfirst, isObject_assign]; exact hr1
    have hgs : JVal.get (applyWrites (w :: ws) r) "Resources" = assignAll (w :: ws) inner := by
      rw [hfirst]
      exact get_assign_self hr1 notNumeral_Resources _
    rw [applyWrites_of_normal (w :: ws) _ hs (by rw [hgs, isObject_assignAll]; exact hinner),
      hgs, assignAll_idem, ← hgs]
    exact assign_of_own? notNumeral_Resources
      (own?_of_isObject_get (by rw [hgs, isObject_assignAll]; exact hinner))

/-! ## C15 -/

/-- C15: a second run of `addWarmupRule` with the same naming service and stage on the
service left by a first run returns that same service: the second run rewrites the
rule and permission ids of the first with the same values and adds nothing. The first
run does return on every `functions` value other than `null` whose definitions are
not nullish. -/
theorem C15_second_run_changes_nothing (naming : Naming) (stage : JVal) (service : Service) :
    (∀ service', addWarmupRule naming stage service = .ok service' →
      addWarmupRule naming stage service' = .ok service') ∧
    (service.functions ≠ .null →
      (∀ e ∈ entries service.functions, isNullish e.2 = false) →
      ∃ service', addWarmupRule naming stage service = .ok service' ∧
        addWarmupRule naming stage service' = .ok service') := by
  have hmain : ∀ service', addWarmupRule naming stage service = .ok service' →
      addWarmupRule naming stage service' = .ok service' := by
    intro service' h
    rw [addWarmupRule_plan] at h
    cases hp : plan naming stage service.functions service.custom with
    | error e => rw [hp] at h; cases h
    | ok ws =>
      rw [hp] at h
      have hs : service' = { service with resources := applyWrites ws service.resources } := by
        cases h; rfl
      subst hs
      rw [addWarmupRule_plan]
      simp only [hp]
      show Except.ok ({ service with
          resources := applyWrites ws (applyWrites ws service.resources) } : Service) = _
      rw [applyWrites_idem]
  refine ⟨hmain, fun hnull hwf => ?_⟩
  obtain ⟨s, hs⟩ := addWarmupRule_returns naming stage service hnull hwf
  exact ⟨s, hs, hmain s hs⟩

theorem C15_second_run_changes_nothing_witness :
    ∃ service', addWarmupRule exNaming (.str "dev") exMergeService = .ok service' ∧
      addWarmupRule exNaming (.str "dev") service' = .ok service' ∧
      resourceAt service' "LambdaWarmupEventsRule2Function6LambdaFunctionSchedulePermission"
        = some (permissionResource "LambdaWarmupEventsRule2"
            (mkTarget exNaming (runInput .undefined) "function6")) := by
  refine ⟨_, rfl, ?_, rfl⟩
  exact (C15_second_run_changes_nothing exNaming (.str "dev") exMergeService).1 _ rfl

/-! ## C16 -/

/-- C16, as stated, fails: the version `1.13.0-beta.1` is higher than `1.12.0`, and the
constructor throws `... requires serverless 1.12 or higher!` on it; and the version
`99999999999999999.0.0` is higher than `1.12.0`, and the constructor does not return an
instance on it. -/
theorem C16_counterexample :
    gteMinimum { major := 1, minor := 13, patch := 0, prerelease := ["beta", "1"] } = true ∧
    construct (.parsed { major := 1, minor := 13, patch := 0, prerelease := ["beta", "1"] })
        exNaming (.str "dev")
      = .error (.Error
          "serverless-plugin-lambda-account-access requires serverless 1.12 or higher!") ∧
    gteMinimum { major := 99999999999999999, minor := 0, patch := 0, prerelease := [] } = true ∧
    (construct (.parsed { major := 99999999999999999, minor := 0, patch := 0, prerelease := [] })
        exNaming (.str "dev")).toOption.isNone = true := by
  refine ⟨rfl, rfl, by decide, ?_⟩
  have h : construct
      (.parsed { major := 99999999999999999, minor := 0, patch := 0, prerelease := [] })
      exNaming (.str "dev") = .error (.semver .TypeError) := by
    unfold construct satisfies newSemVer
    simp [MAX_SAFE_INTEGER]
  rw [h]
  rfl

theorem satisfies_parsed (fields : SemVer)
    (hmajor : fields.major ≤ MAX_SAFE_INTEGER) (hminor : fields.minor ≤ MAX_SAFE_INTEGER)
    (hpatch : fields.patch ≤ MAX_SAFE_INTEGER) :
    satisfies (.parsed fields) = .ok (gteMinimum fields && fields.prerelease.isEmpty) := by
  unfold satisfies newSemVer
  simp only [Nat.not_lt.2 hmajor, Nat.not_lt.2 hminor, Nat.not_lt.2 hpatch, if_false]

theorem gteMinimum_release (fields : SemVer) (hpre : fields.prerelease = []) :
    gteMinimum fields = true ↔
      ¬ (fields.major < 1 ∨ (fields.major = 1 ∧ fields.minor < 12)) := by
  unfold gteMinimum
  simp only [hpre, List.isEmpty_nil]
  split_ifs with h1 h2 h3
  · simp only [decide_eq_true_eq]
    constructor
    · intro h; omega
    · intro h; omega
  · simp only [decide_eq_true_eq]
    constructor
    · intro h; omega
    · intro h; omega
  · simp only [true_iff]
    omega
  · simp only [true_iff]
    omega

/-- C16 (amended): on a host version that is a semantic version (a string the semver
package reads, its numbers at most `MAX_SAFE_INTEGER`) the constructor throws the error
`serverless-plugin-lambda-account-access requires serverless 1.12 or higher!` exactly
when the version carries a prerelease tag or is below `1.12`, and throws nothing else;
on every such version without prerelease tag that is `1.12.0` or higher it returns an
instance whose hooks have the single key `package:createDeploymentArtifacts`, with a
handler that runs `addWarmupRule`. An absent version gets the same error; a value that
the semver package does not read as a version makes the constructor fail with the
`TypeError` of that package. -/
theorem C16_constructor_and_version (naming : Naming) (stage : JVal) :
    (∀ fields : SemVer, fields.major ≤ MAX_SAFE_INTEGER → fields.minor ≤ MAX_SAFE_INTEGER →
      fields.patch ≤ MAX_SAFE_INTEGER →
      (construct (.parsed fields) naming stage
          = .error (.Error
              "serverless-plugin-lambda-account-access requires serverless 1.12 or higher!") ↔
        (fields.prerelease ≠ [] ∨ fields.major < 1 ∨
          (fields.major = 1 ∧ fields.minor < 12))) ∧
      ((construct (.parsed fields) naming stage).toOption.isNone = true →
        construct (.parsed fields) naming stage
          = .error (.Error
              "serverless-plugin-lambda-account-access requires serverless 1.12 or higher!")) ∧
      (fields.prerelease = [] →
        ¬ (fields.major < 1 ∨ (fields.major = 1 ∧ fields.minor < 12)) →
        ∃ plugin, construct (.parsed fields) naming stage = .ok plugin ∧
          plugin.hooks.map Prod.fst = ["package:createDeploymentArtifacts"] ∧
          ∀ hook ∈ plugin.hooks, ∀ service,
            hook.2 service = addWarmupRule naming stage service)) ∧
    construct .absent naming stage
      = .error (.Error
          "serverless-plugin-lambda-account-access requires serverless 1.12 or higher!") ∧
    construct .malformed naming stage = .error (.semver .TypeError) ∧
    (∀ fields : SemVer,
      (MAX_SAFE_INTEGER < fields.major ∨ MAX_SAFE_INTEGER < fields.minor ∨
        MAX_SAFE_INTEGER < fields.patch) →
      construct (.parsed fields) naming stage = .error (.semver .TypeError)) := by
  refine ⟨?_, rfl, rfl, ?_⟩
  · intro fields hmajor hminor hpatch
    have hsat := satisfies_parsed fields hmajor hminor hpatch
    have hgood : fields.prerelease = [] →
        ¬ (fields.major < 1 ∨ (fields.major = 1 ∧ fields.minor < 12)) →
        construct (.parsed fields) naming stage
          = .ok (Plugin.mk naming stage [("package:createDeploymentArtifacts",
              fun service => addWarmupRule naming stage service)]) := by
      intro hpre hnot
      have hg := (gteMinimum_release fields hpre).2 hnot
      unfold construct
      rw [hsat, hg, hpre]
      rfl
    have hbad : (fields.prerelease ≠ [] ∨ fields.major < 1 ∨
          (fields.major = 1 ∧ fields.minor < 12)) →
        construct (.parsed fields) naming stage
          = .error (.Error
              "serverless-plugin-lambda-account-access requires serverless 1.12 or higher!") := by
      intro h
      have hfalse : (gteMinimum fields && fields.prerelease.isEmpty) = false := by
        by_cases hpre : fields.prerelease = []
        · have hb : fields.major < 1 ∨ (fields.major = 1 ∧ fields.minor < 12) := by
            rcases h with h | h
            · exact absurd hpre h
            · exact h
          have hg : gteMinimum fields = false := by
            cases hgt : gteMinimum fields with
            | false => rfl
            | true => exact absurd hb ((gteMinimum_release fields hpre).1 hgt)
          rw [hg]
          rfl
        · have hne : fields.prerelease.isEmpty = false := by
            cases hl : fields.prerelease with
            | nil => exact absurd hl hpre
            | cons x xs => rfl
          rw [hne, Bool.and_false]
      unfold construct
      rw [hsat, hfalse]
    have hcases : (fields.prerelease ≠ [] ∨ fields.major < 1 ∨
          (fields.major = 1 ∧ fields.minor < 12)) ∨
        (fields.prerelease = [] ∧
          ¬ (fields.major < 1 ∨ (fields.major = 1 ∧ fields.minor < 12))) := by
      by_cases hpre : fields.prerelease = []
      · by_cases hb : fields.major < 1 ∨ (fields.major = 1 ∧ fields.minor < 12)
        · exact Or.inl (Or.inr hb)
        · exact Or.inr ⟨hpre, hb⟩
      · exact Or.inl (Or.inl hpre)
    refine ⟨⟨?_, hbad⟩, ?_, ?_⟩
    · intro herr
      rcases hcases with h | ⟨hpre, hnot⟩
      · exact h
      · rw [hgood hpre hnot] at herr
        cases herr
    · intro hnone
      rcases hcases with h | ⟨hpre, hnot⟩
      · exact hbad h
      · rw [hgood hpre hnot] at hnone
        cases hnone
    · intro hpre hnot
      refine ⟨_, hgood hpre hnot, rfl, ?_⟩
      intro hook hhook service
      rw [List.mem_singleton.1 hhook]
  · intro fields hbig
    unfold construct satisfies newSemVer
    by_cases h1 : MAX_SAFE_INTEGER < fields.major
    · simp only [h1, if_true]
    · by_cases h2 : MAX_SAFE_INTEGER < fields.minor
      · simp only [h1, h2, if_true, if_false]
      · have h3 : MAX_SAFE_INTEGER < fields.patch := by
          rcases hbig with h | h | h
          · exact absurd h h1
          · exact absurd h h2
          · exact h
        simp only [h1, h2, h3, if_true, if_false]

theorem C16_constructor_and_version_witness :
    construct (.parsed { major := 1, minor := 11, patch := 0, prerelease := [] })
        exNaming (.str "dev")
      = .error (.Error
          "serverless-plugin-lambda-account-access requires serverless 1.12 or higher!") ∧
    ∃ plugin,
      construct (.parsed { major := 1, minor := 12, patch := 0, prerelease := [] })
          exNaming (.str "dev") = .ok plugin ∧
      plugin.hooks.map Prod.fst = ["package:createDeploymentArtifacts"] := by
  refine ⟨((C16_constructor_and_version exNaming (.str "dev")).1
    { major := 1, minor := 11, patch := 0, prerelease := [] }
    (by decide) (by decide) (by decide)).1.2 (Or.inr (Or.inr ⟨rfl, by decide⟩)), ?_⟩
  obtain ⟨p, hp, hk, _⟩ := ((C16_constructor_and_version exNaming (.str "dev")).1
    { major := 1, minor := 12, patch := 0, prerelease := [] }
    (by decide) (by decide) (by decide)).2.2 rfl (by decide)
  exact ⟨p, hp, hk⟩

/-! ## C17 -/

theorem strictEq_bool_false (x : JVal) : strictEq x (.bool false) = true ↔ x = .bool false := by
  cases x <;> simp [strictEq]

theorem isEligible_iff (d : JVal) :
    isEligible d = true ↔ JVal.get d "warmup" ≠ .bool false := by
  unfold isEligible
  rw [← not_iff_not]
  simp only [Bool.not_eq_true', Bool.not_eq_false, ne_eq, not_not]
  exact strictEq_bool_false _

theorem mem_slice_of_mem {targets : List Target} {t : Target} (h : t ∈ targets) :
    ∃ i, i < ruleCount targets.length ∧ t ∈ slice targets i := by
  have hj := join_slices (ruleCount targets.length) targets (ruleCount_bounds targets.length).1
  rw [← hj] at h
  obtain ⟨l, hl, htl⟩ := List.mem_flatten.1 h
  obtain ⟨i, hi, rfl⟩ := List.mem_map.1 hl
  exact ⟨i, List.mem_range.1 hi, htl⟩

set_option maxRecDepth 100000 in
/-- C17, as stated, fails: in the forty-six functions of `exCollidingFunctions` the
function `0X` has no `warmup` flag and its target is the first target of rule 1, yet
after the run no permission of the resource tree names it: the entry under its
permission id is the permission written later for `X` under rule 10. -/
theorem C17_counterexample :
    (exCollidingFunctions.head?.map fun e => (e.1, serialize (JVal.get e.2 "warmup"), isEligible e.2))
      = some ("0X", none, true) ∧
    (slice (runTargets exNaming .undefined exCollidingFunctions) 0).head?
      = some (mkTarget exNaming (runInput .undefined) "0X") ∧
    (addWarmupRule exNaming (.str "dev") exCollidingService).toOption.map
      (fun s => (permissionsOf s.resources (exNaming.getLambdaLogicalId "0X")).length)
      = some 0 ∧
    (addWarmupRule exNaming (.str "dev") exCollidingService).toOption.map
      (fun s => (permissionsOf s.resources (exNaming.getLambdaLogicalId "X")).map Prod.fst)
      = some [permissionId (ruleId 1) (mkTarget exNaming (runInput .undefined) "0X")] :=
  ⟨rfl, rfl, rfl, rfl⟩

/-- C17 (amended): a function is a target exactly when its `warmup` flag is not the
boolean `false`. For every definition, the eligibility test of the reducer holds if and
only if `definition.warmup` is not `false`; the targets of a run are those of the
functions passing it, in order, each in one of the rules; each of them is stored among
the `Targets` of its rule; and when no eligible function has a logical id that begins
with a decimal digit or contains one of the path separators `.`, `[` and `]`, each has
a permission of its own, stored under its permission id with its `Arn` as
`FunctionName`. -/
theorem C17_only_false_opts_out (naming : Naming) (stage : JVal) (service : Service)
    (fns : List (String × JVal)) (targets : List Target)
    (hf : service.functions = .obj fns)
    (hwf : ∀ e ∈ fns, isNullish e.2 = false)
    (hgate : stageBlocked service.custom stage = false)
    (hdigit : ∀ e ∈ fns, isEligible e.2 = true →
      startsWithDigit (naming.getLambdaLogicalId e.1) = false)
    (hpath : ∀ e ∈ fns, isEligible e.2 = true →
      pathSafe (naming.getLambdaLogicalId e.1) = true)
    (ht : targets = runTargets naming service.custom fns) :
    (∀ d : JVal, isEligible d = true ↔ JVal.get d "warmup" ≠ .bool false) ∧
    targets = (fns.filter fun e => !(strictEq (JVal.get e.2 "warmup") (.bool false))).map
      (fun e => mkTarget naming (runInput service.custom) e.1) ∧
    (∀ e ∈ fns, JVal.get e.2 "warmup" ≠ .bool false →
      ∃ i, i < ruleCount targets.length ∧
        mkTarget naming (runInput service.custom) e.1 ∈ slice targets i) ∧
    ∃ service', addWarmupRule naming stage service = .ok service' ∧
      ∀ i, i < ruleCount targets.length → ∀ t ∈ slice targets i,
        (∃ rule, resourceAt service' (ruleId (i + 1)) = some rule ∧
          Target.toJVal t ∈ targetsOf rule) ∧
        pathSafe (permissionId (ruleId (i + 1)) t) = true ∧
        resourceAt service' (permissionId (ruleId (i + 1)) t)
          = some (permissionResource (ruleId (i + 1)) t) ∧
        JVal.get (permissionResource (ruleId (i + 1)) t) "Type"
          = .str "AWS::Lambda::Permission" ∧
        JVal.get (JVal.get (permissionResource (ruleId (i + 1)) t) "Properties") "FunctionName"
          = t.Arn := by
  subst ht
  refine ⟨isEligible_iff, rfl, ?_, _, addWarmupRule_eq naming stage service fns hf hwf hgate, ?_⟩
  · intro e he hflag
    apply mem_slice_of_mem
    simp only [runTargets, targetList, List.mem_map, List.mem_filter]
    exact ⟨e, ⟨he, (isEligible_iff e.2).2 hflag⟩, rfl⟩
  · intro i hi t hmem
    refine ⟨?_, ?_, ?_, rfl, rfl⟩
    · refine ⟨ruleResource (warmupConfig service.custom) naming.getStackName (i + 1)
        (slice (runTargets naming service.custom fns) i), ?_, ?_⟩
      · rw [resourceAt_applyWrites _ _ runWrites_notNumeral]
        exact lastWrite_rule naming service.custom fns hi _
      · exact List.mem_map_of_mem Target.toJVal hmem
    · obtain ⟨e, he, hel, rfl⟩ := mem_runTargets (mem_of_mem_slice hmem)
      exact pathSafe_permissionId naming _ _ (hpath e he hel)
    · rw [resourceAt_applyWrites _ _ runWrites_notNumeral]
      exact lastWrite_permission naming service.custom fns hdigit hi hmem _

theorem C17_only_false_opts_out_witness :
    (runTargets exNaming .undefined exFlagFunctions).map Target.Id
      = ["AbsentLambdaFunctionSchedule", "TrueLambdaFunctionSchedule",
         "NullLambdaFunctionSchedule", "ZeroLambdaFunctionSchedule",
         "EmptyLambdaFunctionSchedule", "TextLambdaFunctionSchedule"] ∧
    ∃ service', addWarmupRule exNaming (.str "dev")
        { functions := .obj exFlagFunctions, custom := .undefined, resources := .undefined }
        = .ok service' ∧
      resourceAt service' "LambdaWarmupEventsRule2TextLambdaFunctionSchedulePermission"
        = some (permissionResource "LambdaWarmupEventsRule2"
            (mkTarget exNaming (runInput .undefined) "text")) := by
  obtain ⟨_, h2, _, s, hs, h3⟩ :=
    C17_only_false_opts_out exNaming (.str "dev")
      { functions := .obj exFlagFunctions, custom := .undefined, resources := .undefined }
      exFlagFunctions (runTargets exNaming .undefined exFlagFunctions) rfl (by decide) rfl
      (by decide) (by decide) rfl
  refine ⟨by rw [h2]; rfl, s, hs, ?_⟩
  exact (h3 1 (by decide) (mkTarget exNaming (runInput .undefined) "text")
    (List.mem_singleton.2 rfl)).2.2.1

/-! ## C18 -/

theorem permissionId_mkTarget (naming : Naming) (input : JVal) (i : Nat) (name : String) :
    permissionId (ruleId i) (mkTarget naming input name)
      = "LambdaWarmupEventsRule" ++ toString i ++ naming.getLambdaLogicalId name
          ++ "SchedulePermission" := by
  apply String.ext
  simp only [permissionId, ruleId, mkTarget, RESOURCE_NAME, String.data_append,
    List.append_assoc]
  rfl

/-- C18: permission ids are injective when no logical id begins with a decimal digit.
For rule indexes `i`, `j` and logical ids `L`, `L'` that do not begin with a digit,
`'LambdaWarmupEventsRule' + i + L + 'SchedulePermission'` equals
`'LambdaWarmupEventsRule' + j + L' + 'SchedulePermission'` only if `i = j` and `L = L'`;
these strings are the permission ids the run forms, so two permissions of a run that
share an id are one and the same permission. -/
theorem C18_permission_ids_injective (naming : Naming) (input : JVal) (i j : Nat)
    (L L' a b : String)
    (hL : startsWithDigit L = false) (hL' : startsWithDigit L' = false)
    (ha : naming.getLambdaLogicalId a = L) (hb : naming.getLambdaLogicalId b = L')
    (h : "LambdaWarmupEventsRule" ++ toString i ++ L ++ "SchedulePermission"
      = "LambdaWarmupEventsRule" ++ toString j ++ L' ++ "SchedulePermission") :
    (i = j ∧ L = L') ∧
    permissionId (ruleId i) (mkTarget naming input a)
      = "LambdaWarmupEventsRule" ++ toString i ++ L ++ "SchedulePermission" ∧
    permissionId (ruleId j) (mkTarget naming input b)
      = "LambdaWarmupEventsRule" ++ toString j ++ L' ++ "SchedulePermission" ∧
    permissionResource (ruleId i) (mkTarget naming input a)
      = permissionResource (ruleId j) (mkTarget naming input b) := by
  have h1 := permissionId_mkTarget naming input i a
  have h2 := permissionId_mkTarget naming input j b
  rw [ha] at h1
  rw [hb] at h2
  have hid : permissionId (ruleId i) (mkTarget naming input a)
      = permissionId (ruleId j) (mkTarget naming input b) := by rw [h1, h2, h]
  have hsa : startsWithDigit (mkTarget naming input a).Id = false := by
    rw [startsWithDigit_mkTarget, ha]; exact hL
  have hsb : startsWithDigit (mkTarget naming input b).Id = false := by
    rw [startsWithDigit_mkTarget, hb]; exact hL'
  obtain ⟨hij, hId⟩ := permissionId_injective hsa hsb hid
  have hm := mkTarget_eq_of_Id hId
  have hLL : L = L' := by
    have h' := congrArg String.data hId
    simp only [mkTarget, String.data_append, ha, hb] at h'
    exact String.ext (List.append_cancel_right h')
  exact ⟨⟨hij, hLL⟩, h1, h2, by rw [hij, hm]⟩

theorem C18_permission_ids_injective_witness :
    permissionId (ruleId 2) (mkTarget exNaming (runInput .undefined) "function6")
      = "LambdaWarmupEventsRule2Function6LambdaFunctionSchedulePermission" ∧
    startsWithDigit "Function6LambdaFunction" = false :=
  ⟨(C18_permission_ids_injective exNaming (runInput .undefined) 2 2
      "Function6LambdaFunction" "Function6LambdaFunction" "function6" "function6"
      (by decide) (by decide) rfl rfl rfl).2.1,
    by decide⟩

/-! ## C19 -/

/-- C19: whatever the naming service, no permission id equals a rule id: a rule id is
`LambdaWarmupEventsRule` followed by a decimal index, a permission id ends in
`Permission`. Hence, for logical ids free of the path separators `.`, `[` and `]`, so
that every id of the run is one key of its path, no permission write of a run
overwrites a rule, and after a run past the stage gate every one of the `ceil(N / 5)`
rules is in the resource tree. -/
theorem C19_permissions_never_overwrite_rules (naming : Naming) (stage : JVal)
    (service : Service) (fns : List (String × JVal)) (targets : List Target)
    (hf : service.functions = .obj fns)
    (hwf : ∀ e ∈ fns, isNullish e.2 = false)
    (hpath : ∀ e ∈ fns, isEligible e.2 = true →
      pathSafe (naming.getLambdaLogicalId e.1) = true)
    (hgate : stageBlocked service.custom stage = false)
    (ht : targets = runTargets naming service.custom fns) :
    (∀ (i j : Nat) (t : Target), permissionId (ruleId j) t ≠ ruleId i) ∧
    targets.length = (fns.filter fun e => isEligible e.2).length ∧
    (∀ i, i < ruleCount targets.length → ∀ t ∈ slice targets i,
      pathSafe (permissionId (ruleId (i + 1)) t) = true) ∧
    ∃ service', addWarmupRule naming stage service = .ok service' ∧
      ∀ i, i < ruleCount targets.length →
        resourceAt service' (ruleId (i + 1))
          = some (ruleResource (warmupConfig service.custom) naming.getStackName (i + 1)
              (slice targets i)) := by
  subst ht
  refine ⟨fun i j t h => ruleId_ne_permissionId i j t h.symm, runTargets_length _ _ _, ?_, _,
    addWarmupRule_eq naming stage service fns hf hwf hgate, ?_⟩
  · intro i _ t hmem
    obtain ⟨e, he, hel, rfl⟩ := mem_runTargets (mem_of_mem_slice hmem)
    exact pathSafe_permissionId naming _ _ (hpath e he hel)
  · intro i hi
    rw [resourceAt_applyWrites _ _ runWrites_notNumeral]
    exact lastWrite_rule naming service.custom fns hi _

theorem C19_permissions_never_overwrite_rules_witness :
    ∃ service', addWarmupRule exNaming (.str "dev") exCollidingService = .ok service' ∧
      resourceAt service' (ruleId 10)
        = some (ruleResource (.obj []) "foo-dev" 10
            [mkTarget exNaming (runInput .undefined) "X"]) := by
  obtain ⟨_, _, _, s, hs, h⟩ :=
    C19_permissions_never_overwrite_rules exNaming (.str "dev") exCollidingService
      exCollidingFunctions (runTargets exNaming .undefined exCollidingFunctions) rfl
      (by decide) (by decide) rfl rfl
  exact ⟨s, hs, h 9 (by decide)⟩

end LambdaWarmup
